import Mathlib

/-!
Verification development for an incremental lexical analyzer.

The lexer consumes Unicode source text delivered in arbitrarily-sized
chunks and produces typed tokens.  Chunks are modelled as lists of
Unicode code unit values (natural numbers, mirroring the host
language's charCodeAt); the lexer state is an explicit record and the
two public operations, appendSource and next, are pure functions on
that record.  Fallible operations return Except values whose error
constructors mirror the exceptions the implementation can throw,
including the runtime reference error raised by an undeclared
identifier in the hexadecimal-prefix check.
-/

namespace UC

/-- Character codes named by the unicode helper module. -/
def LINE_FEED : Nat := 0x000A
def QUOTATION_MARK : Nat := 0x0022
def APOSTROPHE : Nat := 0x0027
def PLUS_SIGN : Nat := 0x002B
def FULL_STOP : Nat := 0x002E
def DIGIT_ZERO : Nat := 0x0030
def CAPITAL_LETTER_E : Nat := 0x0045
def REVERSE_SOLIDUS : Nat := 0x005C
def SMALL_LETTER_E : Nat := 0x0065
def SMALL_LETTER_X : Nat := 0x0078

/-- True if code `c` causes space between characters. -/
def is_space (c : Nat) : Bool :=
  decide (c = 0x0009 ∨ c = 0x0020 ∨ c = 0x00A0 ∨ c = 0x180E ∨
          (0x1fff < c ∧ c < 0x200C) ∨ c = 0x202F ∨ c = 0x205F ∨
          c = 0x3000 ∨ c = 0xFEFF)

/-- True if code `c` causes lines to break. -/
def is_linebreak (c : Nat) : Bool :=
  decide ((0x0009 < c ∧ c < 0x000E) ∨ c = 0x0085 ∨ c = 0x2028 ∨ c = 0x2029)

/-- True if code `c` is any kind of whitespace. -/
def is_whitespace (c : Nat) : Bool :=
  is_space c || is_linebreak c

/-- True if code `c` is a decimal digit. -/
def is_decdigit (c : Nat) : Bool :=
  decide (0x002F < c ∧ c < 0x003A)

/-- True if code `c` is a hexadecimal digit. -/
def is_hexdigit (c : Nat) : Bool :=
  decide ((0x002F < c ∧ c < 0x003A) ∨ (0x0040 < c ∧ c < 0x0047) ∨
          (0x0060 < c ∧ c < 0x0067))

end UC

/-- Token type identifiers, in definition order (LINE receives id 0). -/
def LINE : Nat := 0
def LEFT_PAREN : Nat := 1
def RIGHT_PAREN : Nat := 2
def LEFT_SQUARE_BRACKET : Nat := 3
def RIGHT_SQUARE_BRACKET : Nat := 4
def LEFT_CURLY_BRACKET : Nat := 5
def RIGHT_CURLY_BRACKET : Nat := 6
def FULL_STOP : Nat := 7
def COLON : Nat := 8
def DECIMAL_NUMBER : Nat := 9
def HEX_NUMBER : Nat := 10
def FRACTIONAL_NUMBER : Nat := 11
def SYMBOL : Nat := 12
def TEXT : Nat := 13

/-- Map from code to token id for the single-character tokens. -/
def SINGLE_TOKENS (c : Nat) : Option Nat :=
  if c = 0x28 then some LEFT_PAREN
  else if c = 0x29 then some RIGHT_PAREN
  else if c = 0x5B then some LEFT_SQUARE_BRACKET
  else if c = 0x5D then some RIGHT_SQUARE_BRACKET
  else if c = 0x7B then some LEFT_CURLY_BRACKET
  else if c = 0x7D then some RIGHT_CURLY_BRACKET
  else if c = 0x2E then some FULL_STOP
  else if c = 0x3A then some COLON
  else none

/-- True if code `c` is a valid symbol character. -/
def is_symbol_character (c : Nat) : Bool :=
  decide (0x0020 < c) && decide (c ≠ UC.REVERSE_SOLIDUS) &&
  !(decide (0x007E < c) && decide (c < 0x00A1)) &&
  !(UC.is_whitespace c) && (SINGLE_TOKENS c).isNone

/-- Value of a finished token: absent, a string (code list) or a number. -/
inductive TokenValue where
  | vNone : TokenValue
  | vStr : List Nat → TokenValue
  | vNum : Int → TokenValue
deriving DecidableEq, Repr

/-- A finished token handed to the caller. -/
structure Token where
  type : Nat
  value : TokenValue
  offset : Nat
  line : Nat
  column : Int
deriving DecidableEq, Repr

/-- A token still being read; value is the buffered accumulator when present. -/
structure PTok where
  type : Nat
  value : Option (List Nat)
  offset : Nat
  line : Nat
  column : Int
deriving DecidableEq, Repr

/-- Errors the lexer can raise.  referenceErrorDigitZero models the host
runtime error raised by the undeclared identifier DIGIT_ZERO in the
buffered-mode hexadecimal-prefix check. -/
inductive LexErr where
  | unexpectedChar : Nat → LexErr
  | unexpectedX : LexErr
  | referenceErrorDigitZero : LexErr
  | lesson1Text : LexErr
  | unexpectedTokenType : Nat → LexErr
deriving DecidableEq, Repr

/-- Full lexer state.  sourceTailNull mirrors whether the implementation's
tail pointer into the chunk linked list is null; the chunk list itself is
held as the list of chunks reachable from the head pointer. -/
structure Lexer where
  source : List (List Nat)
  sourceTailNull : Bool
  sourceOffset : Nat
  tokenOffset : Nat
  tokenLine : Nat
  tokenColumn : Int
  token : Option PTok
  tokenValueOffset : Int
deriving DecidableEq, Repr

/-- Initial lexer state. -/
def initLexer : Lexer :=
  { source := [], sourceTailNull := true, sourceOffset := 0,
    tokenOffset := 0, tokenLine := 0, tokenColumn := 0,
    token := none, tokenValueOffset := -1 }

/-- Enqueue a source chunk at the tail of the chunk list. -/
def appendSource (chunk : List Nat) (L : Lexer) : Lexer :=
  { L with
    source := if L.source = [] then [chunk] else L.source ++ [chunk],
    sourceTailNull := false }

/-- Build a fresh in-progress token of `type` from the current counters. -/
def makeToken (L : Lexer) (type : Nat) : PTok :=
  { type := type, value := none, offset := L.tokenOffset,
    line := L.tokenLine, column := L.tokenColumn }

/-- Substring [a, b) of a code list. -/
def substring (s : List Nat) (a b : Nat) : List Nat :=
  (s.drop a).take (b - a)

/-- Finalize the in-progress token `tok` and clear the reading state. -/
def flushToken (L : Lexer) (tok : PTok) : Token × Lexer :=
  if tok.type = LINE then
    ({ type := tok.type,
       value := .vNum ((L.tokenOffset : Int) - (tok.offset : Int) - 1),
       offset := tok.offset, line := tok.line, column := tok.column },
     { L with token := none })
  else if L.tokenValueOffset ≠ -1 then
    ({ type := tok.type,
       value := .vStr (substring (L.source.headD []) L.tokenValueOffset.toNat
                         L.sourceOffset),
       offset := tok.offset, line := tok.line, column := tok.column },
     { L with token := none, tokenValueOffset := -1 })
  else
    ({ type := tok.type,
       value := match tok.value with
                | some s => .vStr s
                | none => .vNone,
       offset := tok.offset, line := tok.line, column := tok.column },
     { L with token := none })

/-- Advance the three per-character counters. -/
def consume1 (L : Lexer) : Lexer :=
  { L with sourceOffset := L.sourceOffset + 1,
           tokenOffset := L.tokenOffset + 1,
           tokenColumn := L.tokenColumn + 1 }

/-- Append code `c` to the in-progress token's accumulator when the token is
in buffered capture mode (tokenValueOffset = -1); no-op in deferred mode. -/
def appendIfBuffered (L : Lexer) (tok : PTok) (c : Nat) : Lexer :=
  if L.tokenValueOffset = -1 then
    { L with token := some { tok with value := some ((tok.value.getD []) ++ [c]) } }
  else
    { L with token := some tok }

/-- Result of processing one character. -/
inductive StepRes where
  | ret : Token → Lexer → StepRes
  | cont : Lexer → StepRes
  | err : LexErr → StepRes
deriving DecidableEq, Repr

/-- Process one source character `c`, mirroring the body of the inner
per-character loop of the lexer's next method. -/
def step (c : Nat) (L : Lexer) : StepRes :=
  match L.token with
  | none =>
    match SINGLE_TOKENS c with
    | some id =>
        let t := makeToken L id
        .ret { type := t.type, value := .vNone, offset := t.offset,
               line := t.line, column := t.column } (consume1 L)
    | none =>
        if c = UC.LINE_FEED then
          .cont (consume1 { L with token := some (makeToken L LINE),
                                   tokenLine := L.tokenLine + 1,
                                   tokenColumn := -1 })
        else if c = UC.APOSTROPHE then
          .cont (consume1 { L with token := some (makeToken L TEXT),
                                   tokenValueOffset := (L.sourceOffset : Int) })
        else if UC.is_decdigit c then
          .cont (consume1 { L with token := some (makeToken L DECIMAL_NUMBER),
                                   tokenValueOffset := (L.sourceOffset : Int) })
        else if is_symbol_character c then
          .cont (consume1 { L with token := some (makeToken L SYMBOL),
                                   tokenValueOffset := (L.sourceOffset : Int) })
        else if UC.is_whitespace c then
          if L.sourceOffset = 0 then
            .cont (consume1 { L with token := some (makeToken L LINE) })
          else
            .cont (consume1 L)
        else
          .err (.unexpectedChar c)
  | some tok =>
    if tok.type = SYMBOL then
      if is_symbol_character c then
        .cont (consume1 (appendIfBuffered L tok c))
      else
        .ret (flushToken L tok).1 (flushToken L tok).2
    else if tok.type = DECIMAL_NUMBER then
      if c = UC.SMALL_LETTER_X then
        if L.tokenValueOffset ≠ -1 then
          if L.tokenValueOffset ≠ (L.sourceOffset : Int) - 1 ∨
             (L.source.headD []).get? L.tokenValueOffset.toNat ≠
               some UC.DIGIT_ZERO then
            .err .unexpectedX
          else
            .cont (consume1 (appendIfBuffered L { tok with type := HEX_NUMBER } c))
        else
          if (tok.value.getD []).length ≠ 1 then
            .err .unexpectedX
          else
            .err .referenceErrorDigitZero
      else if c = UC.FULL_STOP then
        .cont (consume1 (appendIfBuffered L { tok with type := FRACTIONAL_NUMBER } c))
      else if !(UC.is_decdigit c) then
        .ret (flushToken L tok).1 (flushToken L tok).2
      else
        .cont (consume1 (appendIfBuffered L tok c))
    else if tok.type = HEX_NUMBER then
      if UC.is_hexdigit c then
        .cont (consume1 (appendIfBuffered L tok c))
      else
        .ret (flushToken L tok).1 (flushToken L tok).2
    else if tok.type = FRACTIONAL_NUMBER then
      if c = UC.FULL_STOP ∨ c = UC.PLUS_SIGN ∨ c = UC.CAPITAL_LETTER_E ∨
         c = UC.SMALL_LETTER_E ∨ UC.is_decdigit c then
        .cont (consume1 (appendIfBuffered L tok c))
      else
        .ret (flushToken L tok).1 (flushToken L tok).2
    else if tok.type = TEXT then
      .err .lesson1Text
    else if tok.type = LINE then
      if !(UC.is_space c) then
        .ret (flushToken L tok).1 (flushToken L tok).2
      else
        .cont (consume1 L)
    else
      .err (.unexpectedTokenType tok.type)

/-- Transition taken when the head chunk is exhausted: buffer any deferred
token text that still lives in the chunk about to be discarded, pop the
chunk, and reset the chunk-local offset. -/
def exhaustChunk (L : Lexer) : Lexer :=
  let L1 :=
    if L.tokenValueOffset ≠ -1 then
      { L with
        token := L.token.map (fun tok =>
          { tok with
            value := some ((L.source.headD []).drop L.tokenValueOffset.toNat) }),
        tokenValueOffset := -1 }
    else L
  let rest := L1.source.tail
  { L1 with source := rest, sourceOffset := 0,
            sourceTailNull := if rest = [] then true else L1.sourceTailNull }

/-- Outcome of scanning the head chunk: a token was returned, or the chunk
was exhausted and discarded. -/
inductive ChunkOut where
  | tok : Token → Lexer → ChunkOut
  | exhausted : Lexer → ChunkOut
deriving DecidableEq, Repr

/-- Scan characters of the head chunk; `k` bounds the number of characters
still to examine (callers pass the head chunk's length, which suffices
because each recursive call advances sourceOffset by one, so the chunk is
always exhausted before the bound runs out). -/
def chunkLoop : Nat → Lexer → Except LexErr ChunkOut
  | 0, L => .ok (.exhausted (exhaustChunk L))
  | k + 1, L =>
    match (L.source.headD []).get? L.sourceOffset with
    | none => .ok (.exhausted (exhaustChunk L))
    | some c =>
      match step c L with
      | .ret t L' => .ok (.tok t L')
      | .err e => .error e
      | .cont L' => chunkLoop k L' 

/-- Behavior at end of queued source: flush the in-progress token when the
caller signalled that no more source will arrive. -/
def eosStep (ended : Bool) (L : Lexer) : Option Token × Lexer :=
  match L.token with
  | some tok => if ended then (some (flushToken L tok).1, (flushToken L tok).2)
                else (none, L)
  | none => (none, L)

/-- Outer loop of next over the chunk queue; `n` bounds the number of
chunks still to drain. -/
def nextGo (ended : Bool) : Nat → Lexer → Except LexErr (Option Token × Lexer)
  | 0, L => .ok (eosStep ended L)
  | n + 1, L =>
    match L.source with
    | [] => .ok (eosStep ended L)
    | ch :: _ =>
      match chunkLoop ch.length L with
      | .error e => .error e
      | .ok (.tok t L') => .ok (some t, L')
      | .ok (.exhausted L') => nextGo ended n L' 

/-- Read the next token.  Returns none when more input is needed. -/
def next (ended : Bool) (L : Lexer) : Except LexErr (Option Token × Lexer) :=
  nextGo ended L.source.length L

/-- One caller-visible operation on the lexer. -/
inductive Op where
  | app : List Nat → Op
  | nxt : Bool → Op
deriving DecidableEq, Repr

/-- Run a sequence of operations, collecting the returned tokens in order. -/
def runOps (L : Lexer) : List Op → Except LexErr (List Token × Lexer)
  | [] => .ok ([], L)
  | .app c :: ops => runOps (appendSource c L) ops
  | .nxt e :: ops =>
    match next e L with
    | .error err => .error err
    | .ok (t?, L') =>
      match runOps L' ops with
      | .error err => .error err
      | .ok (ts, L'') => .ok (t?.toList ++ ts, L'')

/-- Token list produced by running `ops` from the initial state. -/
def tokensOf (ops : List Op) : Except LexErr (List Token) :=
  (runOps initLexer ops).map (fun p => p.1)

/-! ## Basic facts about the building blocks -/

theorem flushToken_source (L : Lexer) (tok : PTok) :
    (flushToken L tok).2.source = L.source := by
  unfold flushToken; split
  · rfl
  · split <;> rfl

theorem flushToken_sourceTailNull (L : Lexer) (tok : PTok) :
    (flushToken L tok).2.sourceTailNull = L.sourceTailNull := by
  unfold flushToken; split
  · rfl
  · split <;> rfl

theorem flushToken_sourceOffset (L : Lexer) (tok : PTok) :
    (flushToken L tok).2.sourceOffset = L.sourceOffset := by
  unfold flushToken; split
  · rfl
  · split <;> rfl

theorem flushToken_tokenOffset (L : Lexer) (tok : PTok) :
    (flushToken L tok).2.tokenOffset = L.tokenOffset := by
  unfold flushToken; split
  · rfl
  · split <;> rfl

theorem flushToken_tokenLine (L : Lexer) (tok : PTok) :
    (flushToken L tok).2.tokenLine = L.tokenLine := by
  unfold flushToken; split
  · rfl
  · split <;> rfl

theorem flushToken_tokenColumn (L : Lexer) (tok : PTok) :
    (flushToken L tok).2.tokenColumn = L.tokenColumn := by
  unfold flushToken; split
  · rfl
  · split <;> rfl

theorem flushToken_token (L : Lexer) (tok : PTok) :
    (flushToken L tok).2.token = none := by
  unfold flushToken; split
  · rfl
  · split <;> rfl

theorem flushToken_offset (L : Lexer) (tok : PTok) :
    (flushToken L tok).1.offset = tok.offset := by
  unfold flushToken; split
  · rfl
  · split <;> rfl

theorem flushToken_line (L : Lexer) (tok : PTok) :
    (flushToken L tok).1.line = tok.line := by
  unfold flushToken; split
  · rfl
  · split <;> rfl

theorem flushToken_column (L : Lexer) (tok : PTok) :
    (flushToken L tok).1.column = tok.column := by
  unfold flushToken; split
  · rfl
  · split <;> rfl

theorem flushToken_type (L : Lexer) (tok : PTok) :
    (flushToken L tok).1.type = tok.type := by
  unfold flushToken; split
  · rfl
  · split <;> rfl

theorem flushToken_value_deferred (L : Lexer) (tok : PTok)
    (ht : tok.type ≠ LINE) (hd : L.tokenValueOffset ≠ -1) :
    (flushToken L tok).1.value =
      .vStr (substring (L.source.headD []) L.tokenValueOffset.toNat
               L.sourceOffset) := by
  rw [flushToken, if_neg ht, if_pos hd]

theorem flushToken_value_buffered (L : Lexer) (tok : PTok)
    (ht : tok.type ≠ LINE) (hb : L.tokenValueOffset = -1) :
    (flushToken L tok).1.value =
      (match tok.value with
       | some s => TokenValue.vStr s
       | none => TokenValue.vNone) := by
  rw [flushToken, if_neg ht, if_neg (show ¬L.tokenValueOffset ≠ -1 by simp [hb])]

theorem flushToken_value_line (L : Lexer) (tok : PTok) (ht : tok.type = LINE) :
    (flushToken L tok).1.value =
      .vNum ((L.tokenOffset : Int) - (tok.offset : Int) - 1) := by
  rw [flushToken, if_pos ht]

theorem appendIfBuffered_source (L : Lexer) (tok : PTok) (c : Nat) :
    (appendIfBuffered L tok c).source = L.source := by
  unfold appendIfBuffered; split <;> rfl

theorem appendIfBuffered_sourceTailNull (L : Lexer) (tok : PTok) (c : Nat) :
    (appendIfBuffered L tok c).sourceTailNull = L.sourceTailNull := by
  unfold appendIfBuffered; split <;> rfl

theorem appendIfBuffered_sourceOffset (L : Lexer) (tok : PTok) (c : Nat) :
    (appendIfBuffered L tok c).sourceOffset = L.sourceOffset := by
  unfold appendIfBuffered; split <;> rfl

theorem appendIfBuffered_tokenOffset (L : Lexer) (tok : PTok) (c : Nat) :
    (appendIfBuffered L tok c).tokenOffset = L.tokenOffset := by
  unfold appendIfBuffered; split <;> rfl

theorem appendIfBuffered_tokenLine (L : Lexer) (tok : PTok) (c : Nat) :
    (appendIfBuffered L tok c).tokenLine = L.tokenLine := by
  unfold appendIfBuffered; split <;> rfl

theorem appendIfBuffered_tokenColumn (L : Lexer) (tok : PTok) (c : Nat) :
    (appendIfBuffered L tok c).tokenColumn = L.tokenColumn := by
  unfold appendIfBuffered; split <;> rfl

theorem appendIfBuffered_tokenValueOffset (L : Lexer) (tok : PTok) (c : Nat) :
    (appendIfBuffered L tok c).tokenValueOffset = L.tokenValueOffset := by
  unfold appendIfBuffered; split <;> rfl

theorem appendIfBuffered_token_map (L : Lexer) (tok : PTok) (c : Nat) :
    (appendIfBuffered L tok c).token.map PTok.offset = some tok.offset := by
  unfold appendIfBuffered; split <;> rfl

theorem appendIfBuffered_isSome (L : Lexer) (tok : PTok) (c : Nat) :
    (appendIfBuffered L tok c).token.isSome = true := by
  unfold appendIfBuffered; split <;> rfl

theorem exhaustChunk_sourceOffset (L : Lexer) :
    (exhaustChunk L).sourceOffset = 0 := by
  unfold exhaustChunk; split <;> rfl

theorem exhaustChunk_tokenOffset (L : Lexer) :
    (exhaustChunk L).tokenOffset = L.tokenOffset := by
  unfold exhaustChunk; split <;> rfl

theorem exhaustChunk_tokenLine (L : Lexer) :
    (exhaustChunk L).tokenLine = L.tokenLine := by
  unfold exhaustChunk; split <;> rfl

theorem exhaustChunk_tokenColumn (L : Lexer) :
    (exhaustChunk L).tokenColumn = L.tokenColumn := by
  unfold exhaustChunk; split <;> rfl

theorem exhaustChunk_source (L : Lexer) :
    (exhaustChunk L).source = L.source.tail := by
  unfold exhaustChunk; split <;> rfl

theorem exhaustChunk_tokenValueOffset (L : Lexer) :
    (exhaustChunk L).tokenValueOffset = -1 := by
  unfold exhaustChunk; split
  · rfl
  · simp_all

theorem exhaustChunk_token_map (L : Lexer) :
    (exhaustChunk L).token.map PTok.offset = L.token.map PTok.offset := by
  unfold exhaustChunk; split
  · cases L.token <;> rfl
  · rfl

theorem exhaustChunk_sourceTailNull (L : Lexer) :
    (exhaustChunk L).sourceTailNull =
      if L.source.tail = [] then true else L.sourceTailNull := by
  unfold exhaustChunk
  split <;> split <;> simp_all

theorem exhaustChunk_queueInv (L : Lexer)
    (h : L.source = [] ↔ L.sourceTailNull = true) :
    (exhaustChunk L).source = [] ↔ (exhaustChunk L).sourceTailNull = true := by
  rw [exhaustChunk_source, exhaustChunk_sourceTailNull]
  rcases hs : L.source with _ | ⟨ch, rest⟩
  · simp
  · simp only [List.tail_cons]
    rcases hr : rest with _ | ⟨ch2, rest2⟩
    · simp
    · have hb : L.sourceTailNull = false := by
        rcases hbb : L.sourceTailNull
        · rfl
        · exact absurd (h.mpr hbb) (by simp [hs])
      simp [hb]

theorem appendSource_sourceOffset (chunk : List Nat) (L : Lexer) :
    (appendSource chunk L).sourceOffset = L.sourceOffset := rfl

theorem appendSource_tokenOffset (chunk : List Nat) (L : Lexer) :
    (appendSource chunk L).tokenOffset = L.tokenOffset := rfl

theorem appendSource_tokenLine (chunk : List Nat) (L : Lexer) :
    (appendSource chunk L).tokenLine = L.tokenLine := rfl

theorem appendSource_tokenColumn (chunk : List Nat) (L : Lexer) :
    (appendSource chunk L).tokenColumn = L.tokenColumn := rfl

theorem appendSource_token (chunk : List Nat) (L : Lexer) :
    (appendSource chunk L).token = L.token := rfl

theorem appendSource_tokenValueOffset (chunk : List Nat) (L : Lexer) :
    (appendSource chunk L).tokenValueOffset = L.tokenValueOffset := rfl

theorem appendSource_ne_nil (chunk : List Nat) (L : Lexer) :
    (appendSource chunk L).source ≠ [] := by
  unfold appendSource
  split <;> simp

theorem appendSource_sourceTailNull (chunk : List Nat) (L : Lexer) :
    (appendSource chunk L).sourceTailNull = false := rfl

/-! ## Step-level specifications -/

theorem step_cont_base {c : Nat} {L L' : Lexer} (h : step c L = .cont L') :
    L'.source = L.source ∧ L'.sourceTailNull = L.sourceTailNull ∧
    L'.sourceOffset = L.sourceOffset + 1 ∧
    L'.tokenOffset = L.tokenOffset + 1 := by
  unfold step at h
  repeat' split at h
  all_goals (try exact StepRes.noConfusion h)
  all_goals
    (rw [StepRes.cont.injEq] at h; subst h;
     simp [consume1, appendIfBuffered_source, appendIfBuffered_sourceTailNull,
           appendIfBuffered_sourceOffset, appendIfBuffered_tokenOffset])

theorem step_cont_lf {L L' : Lexer} (h : step UC.LINE_FEED L = .cont L') :
    L'.tokenLine = L.tokenLine + 1 ∧ L'.tokenColumn = 0 := by
  unfold step at h
  repeat' split at h
  all_goals (try exact StepRes.noConfusion h)
  all_goals (rw [StepRes.cont.injEq] at h; subst h)
  all_goals
    (first
      | (simp [consume1]; done)
      | (exfalso;
         simp_all [is_symbol_character, UC.is_whitespace, UC.is_space,
                   UC.is_linebreak, UC.is_decdigit, UC.is_hexdigit,
                   SINGLE_TOKENS, UC.LINE_FEED, UC.APOSTROPHE,
                   UC.SMALL_LETTER_X, UC.FULL_STOP, UC.PLUS_SIGN,
                   UC.CAPITAL_LETTER_E, UC.SMALL_LETTER_E]))

theorem step_cont_not_lf {c : Nat} {L L' : Lexer} (hc : c ≠ UC.LINE_FEED)
    (h : step c L = .cont L') :
    L'.tokenLine = L.tokenLine ∧ L'.tokenColumn = L.tokenColumn + 1 := by
  unfold step at h
  repeat' split at h
  all_goals (try exact StepRes.noConfusion h)
  all_goals (rw [StepRes.cont.injEq] at h; subst h)
  all_goals
    (first
      | (exact absurd (by assumption) hc)
      | (simp [consume1, appendIfBuffered_tokenLine,
               appendIfBuffered_tokenColumn]))

theorem step_cont_inprogress {c : Nat} {L L' : Lexer} {tok : PTok}
    (hT : L.token = some tok) (h : step c L = .cont L') :
    L'.token.map PTok.offset = some tok.offset ∧
    L'.token.isSome = true ∧
    L'.tokenValueOffset = L.tokenValueOffset := by
  unfold step at h
  repeat' split at h
  all_goals (try exact StepRes.noConfusion h)
  all_goals (rw [StepRes.cont.injEq] at h; subst h)
  all_goals
    (first
      | (exfalso; simp_all; done)
      | (simp_all [consume1, appendIfBuffered_token_map, appendIfBuffered_isSome,
                   appendIfBuffered_tokenValueOffset]))

theorem step_cont_fresh {c : Nat} {L L' : Lexer}
    (hT : L.token = none) (h : step c L = .cont L') :
    (L'.token = none ∧ L'.tokenValueOffset = L.tokenValueOffset) ∨
    L'.token.map PTok.offset = some L.tokenOffset := by
  unfold step at h
  repeat' split at h
  all_goals (try exact StepRes.noConfusion h)
  all_goals (rw [StepRes.cont.injEq] at h; subst h)
  all_goals
    (first
      | (exfalso; simp_all; done)
      | (left; simp_all [consume1]; done)
      | (right; simp [consume1, makeToken]; done))

theorem step_ret_base {c : Nat} {L L' : Lexer} {t : Token}
    (h : step c L = .ret t L') :
    L'.source = L.source ∧ L'.sourceTailNull = L.sourceTailNull ∧
    L'.token = none := by
  unfold step at h
  repeat' split at h
  all_goals (try exact StepRes.noConfusion h)
  all_goals
    (rw [StepRes.ret.injEq] at h; obtain ⟨h1, h2⟩ := h; subst h1; subst h2;
     simp_all [consume1, flushToken_source, flushToken_sourceTailNull,
               flushToken_token])

theorem step_ret_single {c : Nat} {L L' : Lexer} {t : Token}
    (hT : L.token = none) (h : step c L = .ret t L') :
    t.offset = L.tokenOffset ∧
    L'.sourceOffset = L.sourceOffset + 1 ∧
    L'.tokenOffset = L.tokenOffset + 1 ∧
    L'.tokenLine = L.tokenLine ∧ L'.tokenColumn = L.tokenColumn + 1 ∧
    L'.tokenValueOffset = L.tokenValueOffset ∧ c ≠ UC.LINE_FEED := by
  unfold step at h
  repeat' split at h
  all_goals (try exact StepRes.noConfusion h)
  all_goals (try (exfalso; simp_all; done))
  all_goals
    (rw [StepRes.ret.injEq] at h; obtain ⟨h1, h2⟩ := h; subst h1; subst h2;
     refine ⟨rfl, rfl, rfl, rfl, rfl, rfl, ?_⟩;
     intro hfc; subst hfc; simp_all [SINGLE_TOKENS, UC.LINE_FEED])

theorem step_ret_flush {c : Nat} {L L' : Lexer} {t : Token} {tok : PTok}
    (hT : L.token = some tok) (h : step c L = .ret t L') :
    t = (flushToken L tok).1 ∧ L' = (flushToken L tok).2 := by
  unfold step at h
  repeat' split at h
  all_goals (try exact StepRes.noConfusion h)
  all_goals (try (exfalso; simp_all; done))
  all_goals
    (rw [StepRes.ret.injEq] at h; obtain ⟨h1, h2⟩ := h; subst h1; subst h2;
     simp_all)

/-! ## Unfolding equations for the loops -/

theorem chunkLoop_zero (L : Lexer) :
    chunkLoop 0 L = .ok (.exhausted (exhaustChunk L)) := rfl

theorem chunkLoop_succ_none (L : Lexer) (k : Nat)
    (hget : (L.source.headD []).get? L.sourceOffset = none) :
    chunkLoop (k + 1) L = .ok (.exhausted (exhaustChunk L)) := by
  unfold chunkLoop
  rw [hget]

theorem chunkLoop_succ_ret (L L1 : Lexer) (k c : Nat) (t : Token)
    (hget : (L.source.headD []).get? L.sourceOffset = some c)
    (hstep : step c L = .ret t L1) :
    chunkLoop (k + 1) L = .ok (.tok t L1) := by
  unfold chunkLoop
  simp only [hget, hstep]

theorem chunkLoop_succ_err (L : Lexer) (k c : Nat) (e : LexErr)
    (hget : (L.source.headD []).get? L.sourceOffset = some c)
    (hstep : step c L = .err e) :
    chunkLoop (k + 1) L = .error e := by
  unfold chunkLoop
  simp only [hget, hstep]

theorem chunkLoop_succ_cont (L L1 : Lexer) (k c : Nat)
    (hget : (L.source.headD []).get? L.sourceOffset = some c)
    (hstep : step c L = .cont L1) :
    chunkLoop (k + 1) L = chunkLoop k L1 := by
  conv_lhs => unfold chunkLoop
  simp only [hget, hstep]

theorem nextGo_zero (e : Bool) (L : Lexer) :
    nextGo e 0 L = .ok (eosStep e L) := rfl

theorem nextGo_succ_nil (e : Bool) (L : Lexer) (n : Nat) (h : L.source = []) :
    nextGo e (n + 1) L = .ok (eosStep e L) := by
  unfold nextGo
  rw [h]

theorem nextGo_succ_err (e : Bool) (L : Lexer) (n : Nat) (ch : List Nat)
    (rest : List (List Nat)) (er : LexErr) (h : L.source = ch :: rest)
    (hc : chunkLoop ch.length L = .error er) :
    nextGo e (n + 1) L = .error er := by
  unfold nextGo
  simp only [h, hc]

theorem nextGo_succ_tok (e : Bool) (L L' : Lexer) (n : Nat) (ch : List Nat)
    (rest : List (List Nat)) (t : Token) (h : L.source = ch :: rest)
    (hc : chunkLoop ch.length L = .ok (.tok t L')) :
    nextGo e (n + 1) L = .ok (some t, L') := by
  unfold nextGo
  simp only [h, hc]

theorem nextGo_succ_exh (e : Bool) (L L' : Lexer) (n : Nat) (ch : List Nat)
    (rest : List (List Nat)) (h : L.source = ch :: rest)
    (hc : chunkLoop ch.length L = .ok (.exhausted L')) :
    nextGo e (n + 1) L = nextGo e n L' := by
  conv_lhs => unfold nextGo
  simp only [h, hc]

theorem eosStep_none_token (e : Bool) (L : Lexer) (h : L.token = none) :
    eosStep e L = (none, L) := by
  unfold eosStep
  rw [h]

theorem eosStep_not_ended (L : Lexer) : eosStep false L = (none, L) := by
  unfold eosStep
  cases L.token <;> simp

theorem eosStep_flush (L : Lexer) (tok : PTok) (h : L.token = some tok) :
    eosStep true L = (some (flushToken L tok).1, (flushToken L tok).2) := by
  unfold eosStep
  rw [h]
  simp

theorem runOps_nil (L : Lexer) : runOps L [] = .ok ([], L) := rfl

theorem runOps_app (L : Lexer) (c : List Nat) (ops : List Op) :
    runOps L (.app c :: ops) = runOps (appendSource c L) ops := rfl

theorem runOps_nxt_err (L : Lexer) (e : Bool) (ops : List Op) (er : LexErr)
    (h : next e L = .error er) :
    runOps L (.nxt e :: ops) = .error er := by
  unfold runOps
  rw [h]

theorem runOps_nxt_ok (L L' : Lexer) (e : Bool) (ops : List Op)
    (t? : Option Token) (h : next e L = .ok (t?, L')) :
    runOps L (.nxt e :: ops) =
      match runOps L' ops with
      | .error err => .error err
      | .ok (ts, L'') => .ok (t?.toList ++ ts, L'') := by
  conv_lhs => unfold runOps
  simp only [h]

/-! ## The token-offset well-formedness invariant -/

/-- Invariant: an in-progress token was started strictly before the current
total offset (its first character has already been consumed). -/
def Wf (L : Lexer) : Prop :=
  ∀ tok, L.token = some tok → tok.offset < L.tokenOffset

/-- Lower bound for the offset of any token the lexer can still return:
the start of the in-progress token if any, else the current total offset. -/
def floorOff (L : Lexer) : Nat :=
  match L.token with
  | some tok => tok.offset
  | none => L.tokenOffset

theorem floorOff_none {L : Lexer} (h : L.token = none) :
    floorOff L = L.tokenOffset := by
  unfold floorOff
  rw [h]

theorem floorOff_some {L : Lexer} {tok : PTok} (h : L.token = some tok) :
    floorOff L = tok.offset := by
  unfold floorOff
  rw [h]

theorem step_cont_wf {c : Nat} {L L' : Lexer} (hw : Wf L)
    (h : step c L = .cont L') :
    Wf L' ∧ floorOff L ≤ floorOff L' ∧ L.tokenOffset ≤ L'.tokenOffset := by
  have hb := step_cont_base h
  obtain ⟨-, -, -, hoff⟩ := hb
  cases hT : L.token with
  | none =>
    rcases step_cont_fresh hT h with ⟨h1, -⟩ | h1
    · refine ⟨?_, ?_, ?_⟩
      · intro tk htk
        rw [h1] at htk
        cases htk
      · rw [floorOff_none hT, floorOff_none h1, hoff]
        omega
      · omega
    · obtain ⟨tok', htok', hto⟩ : ∃ tok', L'.token = some tok' ∧
          tok'.offset = L.tokenOffset := by
        cases ht' : L'.token with
        | none => rw [ht'] at h1; cases h1
        | some tk =>
          rw [ht'] at h1
          simp only [Option.map_some', Option.some.injEq] at h1
          exact ⟨tk, rfl, h1⟩
      refine ⟨?_, ?_, ?_⟩
      · intro tk htk
        rw [htok'] at htk
        cases htk
        rw [hto, hoff]
        omega
      · rw [floorOff_none hT, floorOff_some htok', hto]
      · omega
  | some tok =>
    obtain ⟨h1, -, -⟩ := step_cont_inprogress hT h
    obtain ⟨tok', htok', hto⟩ : ∃ tok', L'.token = some tok' ∧
        tok'.offset = tok.offset := by
      cases ht' : L'.token with
      | none => rw [ht'] at h1; cases h1
      | some tk =>
        rw [ht'] at h1
        simp only [Option.map_some', Option.some.injEq] at h1
        exact ⟨tk, rfl, h1⟩
    have hwt := hw tok hT
    refine ⟨?_, ?_, ?_⟩
    · intro tk htk
      rw [htok'] at htk
      cases htk
      rw [hto, hoff]
      omega
    · rw [floorOff_some hT, floorOff_some htok', hto]
    · omega

theorem step_ret_wf {c : Nat} {L L' : Lexer} {t : Token} (hw : Wf L)
    (h : step c L = .ret t L') :
    Wf L' ∧ t.offset = floorOff L ∧ floorOff L < floorOff L' ∧
    L.tokenOffset ≤ L'.tokenOffset := by
  have hb := step_ret_base h
  obtain ⟨-, -, hn⟩ := hb
  cases hT : L.token with
  | none =>
    obtain ⟨h1, -, h3, -, -, -, -⟩ := step_ret_single hT h
    refine ⟨?_, ?_, ?_, ?_⟩
    · intro tk htk
      rw [hn] at htk
      cases htk
    · rw [floorOff_none hT, h1]
    · rw [floorOff_none hT, floorOff_none hn, h3]
      omega
    · omega
  | some tok =>
    obtain ⟨h1, h2⟩ := step_ret_flush hT h
    have hoff : L'.tokenOffset = L.tokenOffset := by
      rw [h2]; exact flushToken_tokenOffset L tok
    have hto : t.offset = tok.offset := by
      rw [h1]; exact flushToken_offset L tok
    have hwt := hw tok hT
    refine ⟨?_, ?_, ?_, ?_⟩
    · intro tk htk
      rw [hn] at htk
      cases htk
    · rw [floorOff_some hT, hto]
    · rw [floorOff_some hT, floorOff_none hn, hoff]
      omega
    · omega

theorem exhaustChunk_wf {L : Lexer} (hw : Wf L) :
    Wf (exhaustChunk L) ∧ floorOff (exhaustChunk L) = floorOff L := by
  have hmap := exhaustChunk_token_map L
  have hoff := exhaustChunk_tokenOffset L
  constructor
  · intro tk htk
    rw [htk] at hmap
    cases hT : L.token with
    | none => rw [hT] at hmap; cases hmap
    | some tok =>
      rw [hT] at hmap
      simp only [Option.map_some', Option.some.injEq] at hmap
      rw [hoff, hmap]
      exact hw tok hT
  · cases hT : L.token with
    | none =>
      rw [hT] at hmap
      have hnone : (exhaustChunk L).token = none := Option.map_eq_none'.mp hmap
      rw [floorOff_none hnone, floorOff_none hT, hoff]
    | some tok =>
      rw [hT] at hmap
      cases ht' : (exhaustChunk L).token with
      | none => rw [ht'] at hmap; cases hmap
      | some tk =>
        rw [ht'] at hmap
        simp only [Option.map_some', Option.some.injEq] at hmap
        rw [floorOff_some ht', floorOff_some hT, hmap]

theorem eosStep_wf {e : Bool} {L : Lexer} (hw : Wf L) :
    (∀ L', eosStep e L = (none, L') → Wf L' ∧ floorOff L ≤ floorOff L') ∧
    (∀ t L', eosStep e L = (some t, L') →
       Wf L' ∧ floorOff L ≤ t.offset ∧ t.offset < floorOff L') := by
  cases hT : L.token with
  | none =>
    rw [eosStep_none_token e L hT]
    constructor
    · intro L' hL
      cases hL
      exact ⟨hw, le_refl _⟩
    · intro t L' hL
      cases hL
  | some tok =>
    cases e with
    | false =>
      rw [eosStep_not_ended]
      constructor
      · intro L' hL
        cases hL
        exact ⟨hw, le_refl _⟩
      · intro t L' hL
        cases hL
    | true =>
      rw [eosStep_flush L tok hT]
      constructor
      · intro L' hL
        cases hL
      · intro t L' hL
        cases hL
        have hn := flushToken_token L tok
        have hoff := flushToken_tokenOffset L tok
        have hto := flushToken_offset L tok
        refine ⟨?_, ?_, ?_⟩
        · intro tk htk
          rw [hn] at htk
          cases htk
        · rw [floorOff_some hT, hto]
        · rw [hto, floorOff_none hn, hoff]
          exact hw tok hT

theorem chunkLoop_wf (k : Nat) : ∀ L : Lexer, Wf L →
    (∀ L', chunkLoop k L = .ok (.exhausted L') →
       Wf L' ∧ floorOff L ≤ floorOff L') ∧
    (∀ t L', chunkLoop k L = .ok (.tok t L') →
       Wf L' ∧ floorOff L ≤ t.offset ∧ t.offset < floorOff L') := by
  induction k with
  | zero =>
    intro L hw
    constructor
    · intro L' hcl
      rw [chunkLoop_zero] at hcl
      simp only [Except.ok.injEq, ChunkOut.exhausted.injEq] at hcl
      subst hcl
      obtain ⟨hw2, hf⟩ := exhaustChunk_wf hw
      exact ⟨hw2, le_of_eq hf.symm⟩
    · intro t L' hcl
      rw [chunkLoop_zero] at hcl
      simp at hcl
  | succ k ih =>
    intro L hw
    cases hget : (L.source.headD []).get? L.sourceOffset with
    | none =>
      constructor
      · intro L' hcl
        rw [chunkLoop_succ_none L k hget] at hcl
        simp only [Except.ok.injEq, ChunkOut.exhausted.injEq] at hcl
        subst hcl
        obtain ⟨hw2, hf⟩ := exhaustChunk_wf hw
        exact ⟨hw2, le_of_eq hf.symm⟩
      · intro t L' hcl
        rw [chunkLoop_succ_none L k hget] at hcl
        simp at hcl
    | some c =>
      cases hstep : step c L with
      | ret t1 L1 =>
        constructor
        · intro L' hcl
          rw [chunkLoop_succ_ret L L1 k c t1 hget hstep] at hcl
          simp at hcl
        · intro t L' hcl
          rw [chunkLoop_succ_ret L L1 k c t1 hget hstep] at hcl
          simp only [Except.ok.injEq, ChunkOut.tok.injEq] at hcl
          obtain ⟨rfl, rfl⟩ := hcl
          obtain ⟨a, b, c2, -⟩ := step_ret_wf hw hstep
          exact ⟨a, le_of_eq b.symm, by rw [b]; exact c2⟩
      | err e =>
        constructor
        · intro L' hcl
          rw [chunkLoop_succ_err L k c e hget hstep] at hcl
          simp at hcl
        · intro t L' hcl
          rw [chunkLoop_succ_err L k c e hget hstep] at hcl
          simp at hcl
      | cont L1 =>
        obtain ⟨hw1, hf1, -⟩ := step_cont_wf hw hstep
        obtain ⟨ihe, iht⟩ := ih L1 hw1
        constructor
        · intro L' hcl
          rw [chunkLoop_succ_cont L L1 k c hget hstep] at hcl
          obtain ⟨a, b⟩ := ihe L' hcl
          exact ⟨a, le_trans hf1 b⟩
        · intro t L' hcl
          rw [chunkLoop_succ_cont L L1 k c hget hstep] at hcl
          obtain ⟨a, b, c2⟩ := iht t L' hcl
          exact ⟨a, le_trans hf1 b, c2⟩

theorem nextGo_wf (n : Nat) : ∀ (L : Lexer) (e : Bool), Wf L →
    (∀ L', nextGo e n L = .ok (none, L') → Wf L' ∧ floorOff L ≤ floorOff L') ∧
    (∀ t L', nextGo e n L = .ok (some t, L') →
       Wf L' ∧ floorOff L ≤ t.offset ∧ t.offset < floorOff L') := by
  induction n with
  | zero =>
    intro L e hw
    constructor
    · intro L' h
      rw [nextGo_zero] at h
      simp only [Except.ok.injEq] at h
      exact (eosStep_wf hw).1 L' h
    · intro t L' h
      rw [nextGo_zero] at h
      simp only [Except.ok.injEq] at h
      exact (eosStep_wf hw).2 t L' h
  | succ n ih =>
    intro L e hw
    cases hs : L.source with
    | nil =>
      constructor
      · intro L' h
        rw [nextGo_succ_nil e L n hs] at h
        simp only [Except.ok.injEq] at h
        exact (eosStep_wf hw).1 L' h
      · intro t L' h
        rw [nextGo_succ_nil e L n hs] at h
        simp only [Except.ok.injEq] at h
        exact (eosStep_wf hw).2 t L' h
    | cons ch rest =>
      cases hc : chunkLoop ch.length L with
      | error er =>
        constructor
        · intro L' h
          rw [nextGo_succ_err e L n ch rest er hs hc] at h
          simp at h
        · intro t L' h
          rw [nextGo_succ_err e L n ch rest er hs hc] at h
          simp at h
      | ok out =>
        cases out with
        | tok t1 L1 =>
          obtain ⟨-, hck⟩ := chunkLoop_wf ch.length L hw
          obtain ⟨a, b, c2⟩ := hck t1 L1 hc
          constructor
          · intro L' h
            rw [nextGo_succ_tok e L L1 n ch rest t1 hs hc] at h
            simp at h
          · intro t L' h
            rw [nextGo_succ_tok e L L1 n ch rest t1 hs hc] at h
            simp only [Except.ok.injEq, Prod.mk.injEq, Option.some.injEq] at h
            obtain ⟨rfl, rfl⟩ := h
            exact ⟨a, b, c2⟩
        | exhausted L1 =>
          obtain ⟨hce, -⟩ := chunkLoop_wf ch.length L hw
          obtain ⟨hw1, hf1⟩ := hce L1 hc
          obtain ⟨ih1, ih2⟩ := ih L1 e hw1
          constructor
          · intro L' h
            rw [nextGo_succ_exh e L L1 n ch rest hs hc] at h
            obtain ⟨a, b⟩ := ih1 L' h
            exact ⟨a, le_trans hf1 b⟩
          · intro t L' h
            rw [nextGo_succ_exh e L L1 n ch rest hs hc] at h
            obtain ⟨a, b, c2⟩ := ih2 t L' h
            exact ⟨a, le_trans hf1 b, c2⟩

theorem next_wf {e : Bool} {L : Lexer} (hw : Wf L) :
    (∀ L', next e L = .ok (none, L') → Wf L' ∧ floorOff L ≤ floorOff L') ∧
    (∀ t L', next e L = .ok (some t, L') →
       Wf L' ∧ floorOff L ≤ t.offset ∧ t.offset < floorOff L') :=
  nextGo_wf L.source.length L e hw

theorem appendSource_wf {L : Lexer} (hw : Wf L) (c : List Nat) :
    Wf (appendSource c L) ∧ floorOff (appendSource c L) = floorOff L := by
  constructor
  · intro tk htk
    rw [appendSource_token] at htk
    rw [appendSource_tokenOffset]
    exact hw tk htk
  · unfold floorOff
    rw [appendSource_token, appendSource_tokenOffset]

theorem runOps_wf : ∀ (ops : List Op) (L : Lexer), Wf L →
    ∀ ts L', runOps L ops = .ok (ts, L') →
      Wf L' ∧ floorOff L ≤ floorOff L' ∧
      List.Pairwise (fun a b => a.offset < b.offset) ts ∧
      ∀ t ∈ ts, floorOff L ≤ t.offset ∧ t.offset < floorOff L' := by
  intro ops
  induction ops with
  | nil =>
    intro L hw ts L' h
    rw [runOps_nil] at h
    simp only [Except.ok.injEq, Prod.mk.injEq] at h
    obtain ⟨rfl, rfl⟩ := h
    exact ⟨hw, le_refl _, List.Pairwise.nil, by simp⟩
  | cons op ops ih =>
    intro L hw ts L' h
    cases op with
    | app c =>
      rw [runOps_app] at h
      obtain ⟨hw2, hfeq⟩ := appendSource_wf hw c
      obtain ⟨a, b, c2, d⟩ := ih (appendSource c L) hw2 ts L' h
      rw [hfeq] at b d
      exact ⟨a, b, c2, d⟩
    | nxt e =>
      cases hn : next e L with
      | error er =>
        rw [runOps_nxt_err L e ops er hn] at h
        simp at h
      | ok p =>
        obtain ⟨t?, L1⟩ := p
        rw [runOps_nxt_ok L L1 e ops t? hn] at h
        cases hr : runOps L1 ops with
        | error er =>
          simp [hr] at h
        | ok q =>
          obtain ⟨ts1, L2⟩ := q
          simp only [hr, Except.ok.injEq, Prod.mk.injEq] at h
          obtain ⟨rfl, rfl⟩ := h
          cases t? with
          | none =>
            obtain ⟨hw1, hf1⟩ := (next_wf hw).1 L1 hn
            obtain ⟨a, b, c2, d⟩ := ih L1 hw1 ts1 L2 hr
            simp only [Option.toList_none, List.nil_append]
            refine ⟨a, le_trans hf1 b, c2, ?_⟩
            intro t ht
            exact ⟨le_trans hf1 (d t ht).1, (d t ht).2⟩
          | some t0 =>
            obtain ⟨hw1, hfa, hfb⟩ := (next_wf hw).2 t0 L1 hn
            obtain ⟨a, b, c2, d⟩ := ih L1 hw1 ts1 L2 hr
            simp only [Option.toList_some, List.singleton_append]
            refine ⟨a, ?_, ?_, ?_⟩
            · calc floorOff L ≤ t0.offset := hfa
                _ ≤ floorOff L1 := le_of_lt hfb
                _ ≤ floorOff L2 := b
            · refine List.Pairwise.cons ?_ c2
              intro a2 ha2
              exact lt_of_lt_of_le hfb (d a2 ha2).1
            · intro t ht
              rcases List.mem_cons.mp ht with rfl | ht2
              · refine ⟨hfa, ?_⟩
                calc t.offset < floorOff L1 := hfb
                  _ ≤ floorOff L2 := b
              · obtain ⟨d1, d2⟩ := d t ht2
                refine ⟨?_, d2⟩
                calc floorOff L ≤ t0.offset := hfa
                  _ ≤ floorOff L1 := le_of_lt hfb
                  _ ≤ t.offset := d1

/-! ## The queue-emptiness invariant: head is nil iff tail pointer is null -/

/-- Queue invariant relating the head of the chunk list and the mirrored
nullness of the tail pointer. -/
def QueueInv (L : Lexer) : Prop :=
  L.source = [] ↔ L.sourceTailNull = true

theorem initLexer_queueInv : QueueInv initLexer := by
  unfold QueueInv initLexer
  simp

theorem appendSource_queueInv (c : List Nat) (L : Lexer) :
    QueueInv (appendSource c L) := by
  unfold QueueInv
  rw [appendSource_sourceTailNull]
  simp [appendSource_ne_nil c L]

theorem eosStep_queueInv {e : Bool} {L L' : Lexer} {r : Option Token}
    (hq : QueueInv L) (h : eosStep e L = (r, L')) :
    QueueInv L' := by
  cases hT : L.token with
  | none =>
    rw [eosStep_none_token e L hT] at h
    cases h
    exact hq
  | some tok =>
    cases e with
    | false =>
      rw [eosStep_not_ended] at h
      cases h
      exact hq
    | true =>
      rw [eosStep_flush L tok hT] at h
      cases h
      unfold QueueInv
      rw [flushToken_source, flushToken_sourceTailNull]
      exact hq

theorem chunkLoop_queueInv (k : Nat) : ∀ L : Lexer, QueueInv L →
    (∀ L', chunkLoop k L = .ok (.exhausted L') → QueueInv L') ∧
    (∀ t L', chunkLoop k L = .ok (.tok t L') → QueueInv L') := by
  induction k with
  | zero =>
    intro L hq
    constructor
    · intro L' hcl
      rw [chunkLoop_zero] at hcl
      simp only [Except.ok.injEq, ChunkOut.exhausted.injEq] at hcl
      subst hcl
      exact exhaustChunk_queueInv L hq
    · intro t L' hcl
      rw [chunkLoop_zero] at hcl
      simp at hcl
  | succ k ih =>
    intro L hq
    cases hget : (L.source.headD []).get? L.sourceOffset with
    | none =>
      constructor
      · intro L' hcl
        rw [chunkLoop_succ_none L k hget] at hcl
        simp only [Except.ok.injEq, ChunkOut.exhausted.injEq] at hcl
        subst hcl
        exact exhaustChunk_queueInv L hq
      · intro t L' hcl
        rw [chunkLoop_succ_none L k hget] at hcl
        simp at hcl
    | some c =>
      cases hstep : step c L with
      | ret t1 L1 =>
        constructor
        · intro L' hcl
          rw [chunkLoop_succ_ret L L1 k c t1 hget hstep] at hcl
          simp at hcl
        · intro t L' hcl
          rw [chunkLoop_succ_ret L L1 k c t1 hget hstep] at hcl
          simp only [Except.ok.injEq, ChunkOut.tok.injEq] at hcl
          obtain ⟨rfl, rfl⟩ := hcl
          obtain ⟨hsrc, htn, -⟩ := step_ret_base hstep
          unfold QueueInv
          rw [hsrc, htn]
          exact hq
      | err e =>
        constructor
        · intro L' hcl
          rw [chunkLoop_succ_err L k c e hget hstep] at hcl
          simp at hcl
        · intro t L' hcl
          rw [chunkLoop_succ_err L k c e hget hstep] at hcl
          simp at hcl
      | cont L1 =>
        have hq1 : QueueInv L1 := by
          obtain ⟨hsrc, htn, -, -⟩ := step_cont_base hstep
          unfold QueueInv
          rw [hsrc, htn]
          exact hq
        obtain ⟨ihe, iht⟩ := ih L1 hq1
        constructor
        · intro L' hcl
          rw [chunkLoop_succ_cont L L1 k c hget hstep] at hcl
          exact ihe L' hcl
        · intro t L' hcl
          rw [chunkLoop_succ_cont L L1 k c hget hstep] at hcl
          exact iht t L' hcl

theorem nextGo_queueInv (n : Nat) : ∀ (L : Lexer) (e : Bool), QueueInv L →
    ∀ r L', nextGo e n L = .ok (r, L') → QueueInv L' := by
  induction n with
  | zero =>
    intro L e hq r L' h
    rw [nextGo_zero] at h
    simp only [Except.ok.injEq] at h
    exact eosStep_queueInv hq h
  | succ n ih =>
    intro L e hq r L' h
    cases hs : L.source with
    | nil =>
      rw [nextGo_succ_nil e L n hs] at h
      simp only [Except.ok.injEq] at h
      exact eosStep_queueInv hq h
    | cons ch rest =>
      cases hc : chunkLoop ch.length L with
      | error er =>
        rw [nextGo_succ_err e L n ch rest er hs hc] at h
        simp at h
      | ok out =>
        cases out with
        | tok t1 L1 =>
          rw [nextGo_succ_tok e L L1 n ch rest t1 hs hc] at h
          simp only [Except.ok.injEq, Prod.mk.injEq] at h
          obtain ⟨-, rfl⟩ := h
          exact (chunkLoop_queueInv ch.length L hq).2 t1 L1 hc
        | exhausted L1 =>
          rw [nextGo_succ_exh e L L1 n ch rest hs hc] at h
          have hq1 := (chunkLoop_queueInv ch.length L hq).1 L1 hc
          exact ih L1 e hq1 r L' h

theorem next_queueInv {e : Bool} {L L' : Lexer} {r : Option Token}
    (hq : QueueInv L) (h : next e L = .ok (r, L')) : QueueInv L' :=
  nextGo_queueInv L.source.length L e hq r L' h

theorem runOps_queueInv : ∀ (ops : List Op) (L : Lexer), QueueInv L →
    ∀ ts L', runOps L ops = .ok (ts, L') → QueueInv L' := by
  intro ops
  induction ops with
  | nil =>
    intro L hq ts L' h
    rw [runOps_nil] at h
    simp only [Except.ok.injEq, Prod.mk.injEq] at h
    obtain ⟨-, rfl⟩ := h
    exact hq
  | cons op ops ih =>
    intro L hq ts L' h
    cases op with
    | app c =>
      rw [runOps_app] at h
      exact ih (appendSource c L) (appendSource_queueInv c L) ts L' h
    | nxt e =>
      cases hn : next e L with
      | error er =>
        rw [runOps_nxt_err L e ops er hn] at h
        simp at h
      | ok p =>
        obtain ⟨t?, L1⟩ := p
        rw [runOps_nxt_ok L L1 e ops t? hn] at h
        cases hr : runOps L1 ops with
        | error er =>
          simp [hr] at h
        | ok q =>
          obtain ⟨ts1, L2⟩ := q
          simp only [hr, Except.ok.injEq, Prod.mk.injEq] at h
          obtain ⟨-, rfl⟩ := h
          exact ih L1 (next_queueInv hq hn) ts1 L2 hr

/-! ## Ghost trace: relating the counters and token positions to the
consumed prefix of the input -/

/-- Number of LINE FEED codepoints in a list: the line number reached
after consuming exactly these codepoints. -/
def lfCount (s : List Nat) : Nat :=
  (s.filter (fun c => c == 10)).length

/-- Number of codepoints after the last LINE FEED (or since the start):
the column reached after consuming exactly these codepoints. -/
def colOf (s : List Nat) : Nat :=
  (s.reverse.takeWhile (fun c => !(c == 10))).length

/-- Concatenation of all chunks appended by a sequence of operations. -/
def inputOf : List Op → List Nat
  | [] => []
  | .app c :: ops => c ++ inputOf ops
  | .nxt _ :: ops => inputOf ops

/-- Codepoints queued but not yet consumed: the unread suffix of the head
chunk followed by the later chunks. -/
def queueRest (L : Lexer) : List Nat :=
  (L.source.headD []).drop L.sourceOffset ++ L.source.tail.flatten

/-- A returned token's position fields agree with LINE-FEED-only counting
over the consumed prefix `s` of the input. -/
def TokLC (s : List Nat) (t : Token) : Prop :=
  t.offset ≤ s.length ∧ t.line = lfCount (s.take t.offset) ∧
  t.column = (colOf (s.take t.offset) : Int)

/-- An in-progress token's position fields agree with LINE-FEED-only
counting over the consumed prefix `s` of the input. -/
def TokPos (s : List Nat) (tok : PTok) : Prop :=
  tok.line = lfCount (s.take tok.offset) ∧
  tok.column = (colOf (s.take tok.offset) : Int)

/-- The lexer's counters and in-progress token agree with the list `seen`
of codepoints consumed so far. -/
def Tracks (seen : List Nat) (L : Lexer) : Prop :=
  L.tokenOffset = seen.length ∧
  L.tokenLine = lfCount seen ∧
  L.tokenColumn = (colOf seen : Int) ∧
  (∀ tok, L.token = some tok → TokPos seen tok)

/-- The chunk-local offset is reset whenever the queue is empty. -/
def SrcOk (L : Lexer) : Prop :=
  L.source = [] → L.sourceOffset = 0

theorem lfCount_snoc (s : List Nat) (c : Nat) :
    lfCount (s ++ [c]) = if c = 10 then lfCount s + 1 else lfCount s := by
  unfold lfCount
  rw [List.filter_append]
  by_cases hc : c = 10
  · subst hc
    simp
  · simp [hc]

theorem colOf_snoc (s : List Nat) (c : Nat) :
    colOf (s ++ [c]) = if c = 10 then 0 else colOf s + 1 := by
  unfold colOf
  rw [List.reverse_append]
  by_cases hc : c = 10
  · subst hc
    simp
  · simp [List.takeWhile_cons, hc]

theorem take_snoc_of_le (s : List Nat) (c : Nat) (n : Nat) (h : n ≤ s.length) :
    (s ++ [c]).take n = s.take n :=
  List.take_append_of_le_length h

theorem TokLC_append (s u : List Nat) (t : Token) (h : TokLC s t) :
    TokLC (s ++ u) t := by
  obtain ⟨h1, h2, h3⟩ := h
  refine ⟨by rw [List.length_append]; omega, ?_, ?_⟩
  · rw [List.take_append_of_le_length h1]
    exact h2
  · rw [List.take_append_of_le_length h1]
    exact h3

theorem TokPos_snoc (s : List Nat) (c : Nat) (tok : PTok)
    (hlt : tok.offset ≤ s.length) (h : TokPos s tok) :
    TokPos (s ++ [c]) tok := by
  obtain ⟨h1, h2⟩ := h
  unfold TokPos
  rw [take_snoc_of_le s c tok.offset hlt]
  exact ⟨h1, h2⟩

theorem flatten_head_tail (l : List (List Nat)) :
    l.flatten = l.headD [] ++ l.tail.flatten := by
  cases l <;> simp

theorem drop_of_get_some (l : List Nat) (n : Nat) (c : Nat)
    (h : l.get? n = some c) : l.drop n = c :: l.drop (n + 1) := by
  obtain ⟨hn, hc⟩ := List.get?_eq_some.mp h
  rw [List.drop_eq_getElem_cons hn]
  simp [← hc]

theorem drop_of_get_none (l : List Nat) (n : Nat) (h : l.get? n = none) :
    l.drop n = [] := by
  rw [List.get?_eq_none] at h
  exact List.drop_eq_nil_of_le h

/-- Position triple of an in-progress token. -/
def ptokPos (tok : PTok) : Nat × Nat × Int :=
  (tok.offset, tok.line, tok.column)

theorem appendIfBuffered_token_posmap (L : Lexer) (tok : PTok) (c : Nat) :
    (appendIfBuffered L tok c).token.map ptokPos = some (ptokPos tok) := by
  unfold appendIfBuffered
  split <;> rfl

theorem exhaustChunk_token_posmap (L : Lexer) :
    (exhaustChunk L).token.map ptokPos = L.token.map ptokPos := by
  unfold exhaustChunk
  split
  · cases L.token <;> rfl
  · rfl

theorem step_cont_inprogress_posmap {c : Nat} {L L' : Lexer} {tok : PTok}
    (hT : L.token = some tok) (h : step c L = .cont L') :
    L'.token.map ptokPos = some (ptokPos tok) := by
  unfold step at h
  repeat' split at h
  all_goals (try exact StepRes.noConfusion h)
  all_goals (rw [StepRes.cont.injEq] at h; subst h)
  all_goals
    (first
      | (exfalso; simp_all; done)
      | (simp_all [consume1, appendIfBuffered_token_posmap, ptokPos]))

theorem step_cont_fresh_posmap {c : Nat} {L L' : Lexer}
    (hT : L.token = none) (h : step c L = .cont L') :
    L'.token = none ∨
    L'.token.map ptokPos = some (L.tokenOffset, L.tokenLine, L.tokenColumn) := by
  unfold step at h
  repeat' split at h
  all_goals (try exact StepRes.noConfusion h)
  all_goals (rw [StepRes.cont.injEq] at h; subst h)
  all_goals
    (first
      | (exfalso; simp_all; done)
      | (left; simp_all [consume1]; done)
      | (right; simp [consume1, makeToken, ptokPos]; done))

theorem step_ret_single_pos {c : Nat} {L L' : Lexer} {t : Token}
    (hT : L.token = none) (h : step c L = .ret t L') :
    t.offset = L.tokenOffset ∧ t.line = L.tokenLine ∧
    t.column = L.tokenColumn := by
  unfold step at h
  repeat' split at h
  all_goals (try exact StepRes.noConfusion h)
  all_goals (try (exfalso; simp_all; done))
  all_goals
    (rw [StepRes.ret.injEq] at h; obtain ⟨h1, h2⟩ := h; subst h1; subst h2;
     exact ⟨rfl, rfl, rfl⟩)

/-! ## How each transition reshapes the unread queue -/

theorem queueRest_consume {c : Nat} {L L' : Lexer}
    (hget : (L.source.headD []).get? L.sourceOffset = some c)
    (hsrc : L'.source = L.source) (hoff : L'.sourceOffset = L.sourceOffset + 1) :
    queueRest L = c :: queueRest L' := by
  unfold queueRest
  rw [hsrc, hoff, drop_of_get_some _ _ _ hget]
  rfl

theorem queueRest_exhaust {L : Lexer}
    (hget : (L.source.headD []).get? L.sourceOffset = none) :
    queueRest (exhaustChunk L) = queueRest L := by
  unfold queueRest
  rw [exhaustChunk_source, drop_of_get_none _ _ hget, exhaustChunk_sourceOffset]
  rw [List.drop_zero, List.nil_append]
  exact (flatten_head_tail _).symm

theorem queueRest_flush (L : Lexer) (tok : PTok) :
    queueRest (flushToken L tok).2 = queueRest L := by
  unfold queueRest
  rw [flushToken_source, flushToken_sourceOffset]

theorem queueRest_append {L : Lexer} (ch : List Nat) (h0 : SrcOk L) :
    queueRest (appendSource ch L) = queueRest L ++ ch := by
  unfold queueRest appendSource
  rcases hs : L.source with _ | ⟨c0, rest⟩
  · rw [h0 hs]
    simp
  · simp only [hs]
    rw [if_neg (by simp)]
    simp [List.flatten_append, List.append_assoc]

theorem queueRest_eos {e : Bool} {L L' : Lexer} {r : Option Token}
    (h : eosStep e L = (r, L')) : queueRest L' = queueRest L := by
  cases hT : L.token with
  | none =>
    rw [eosStep_none_token e L hT] at h
    cases h
    rfl
  | some tok =>
    cases e with
    | false =>
      rw [eosStep_not_ended] at h
      cases h
      rfl
    | true =>
      rw [eosStep_flush L tok hT] at h
      cases h
      exact queueRest_flush L tok

/-! ## Tracking the consumed prefix through each transition -/

theorem source_ne_of_get {L : Lexer} {c : Nat}
    (hget : (L.source.headD []).get? L.sourceOffset = some c) :
    L.source ≠ [] := by
  intro hs
  rw [hs] at hget
  simp at hget

theorem step_pos_cont {c : Nat} {seen : List Nat} {L L' : Lexer}
    (htr : Tracks seen L) (hw : Wf L) (h : step c L = .cont L') :
    Tracks (seen ++ [c]) L' := by
  obtain ⟨ho, hl, hc2, htok⟩ := htr
  have hb := step_cont_base h
  refine ⟨?_, ?_, ?_, ?_⟩
  · rw [hb.2.2.2, ho, List.length_append]
    rfl
  · by_cases hlf : c = 10
    · subst hlf
      rw [(step_cont_lf h).1, hl, lfCount_snoc]
      simp
    · rw [(step_cont_not_lf (by simpa [UC.LINE_FEED] using hlf) h).1, hl,
          lfCount_snoc]
      simp [hlf]
  · by_cases hlf : c = 10
    · subst hlf
      rw [(step_cont_lf h).2, colOf_snoc]
      simp
    · rw [(step_cont_not_lf (by simpa [UC.LINE_FEED] using hlf) h).2, hc2,
          colOf_snoc]
      simp [hlf]
  · intro tk htk
    cases hT : L.token with
    | none =>
      rcases step_cont_fresh_posmap hT h with hn | hm
      · rw [hn] at htk
        cases htk
      · rw [htk] at hm
        simp only [Option.map_some', Option.some.injEq, ptokPos,
                   Prod.mk.injEq] at hm
        obtain ⟨hm1, hm2, hm3⟩ := hm
        constructor
        · rw [hm2, hm1, ho, take_snoc_of_le _ _ _ (le_refl _),
              List.take_length]
          exact hl
        · rw [hm3, hm1, ho, take_snoc_of_le _ _ _ (le_refl _),
              List.take_length]
          exact hc2
    | some tok =>
      have hm := step_cont_inprogress_posmap hT h
      rw [htk] at hm
      simp only [Option.map_some', Option.some.injEq, ptokPos,
                 Prod.mk.injEq] at hm
      obtain ⟨hm1, hm2, hm3⟩ := hm
      have hwof : tok.offset ≤ seen.length := by
        have := hw tok hT
        omega
      have hp := htok tok hT
      constructor
      · rw [hm2, hm1, take_snoc_of_le _ _ _ hwof]
        exact hp.1
      · rw [hm3, hm1, take_snoc_of_le _ _ _ hwof]
        exact hp.2

theorem step_pos_ret_single {c : Nat} {seen : List Nat} {L L' : Lexer}
    {t : Token} (htr : Tracks seen L) (hT : L.token = none)
    (h : step c L = .ret t L') :
    Tracks (seen ++ [c]) L' ∧ TokLC (seen ++ [c]) t := by
  obtain ⟨ho, hl, hc2, -⟩ := htr
  obtain ⟨-, -, h3, h4, h5, -, h7⟩ := step_ret_single hT h
  obtain ⟨p1, p2, p3⟩ := step_ret_single_pos hT h
  have hn : L'.token = none := (step_ret_base h).2.2
  have hcne : c ≠ 10 := by simpa [UC.LINE_FEED] using h7
  constructor
  · refine ⟨?_, ?_, ?_, ?_⟩
    · rw [h3, ho, List.length_append]
      rfl
    · rw [h4, hl, lfCount_snoc]
      simp [hcne]
    · rw [h5, hc2, colOf_snoc]
      simp [hcne]
    · intro tk htk
      rw [hn] at htk
      cases htk
  · refine ⟨?_, ?_, ?_⟩
    · rw [p1, ho, List.length_append]
      omega
    · rw [p2, hl, p1, ho, take_snoc_of_le _ _ _ (le_refl _), List.take_length]
    · rw [p3, hc2, p1, ho, take_snoc_of_le _ _ _ (le_refl _), List.take_length]

theorem flush_pos {seen : List Nat} {L : Lexer} {tok : PTok}
    (htr : Tracks seen L) (hw : Wf L) (hT : L.token = some tok) :
    Tracks seen (flushToken L tok).2 ∧ TokLC seen (flushToken L tok).1 := by
  obtain ⟨ho, hl, hc2, htok⟩ := htr
  have hp := htok tok hT
  have hwof : tok.offset ≤ seen.length := by
    have := hw tok hT
    omega
  constructor
  · refine ⟨?_, ?_, ?_, ?_⟩
    · rw [flushToken_tokenOffset]
      exact ho
    · rw [flushToken_tokenLine]
      exact hl
    · rw [flushToken_tokenColumn]
      exact hc2
    · intro tk htk
      rw [flushToken_token] at htk
      cases htk
  · refine ⟨?_, ?_, ?_⟩
    · rw [flushToken_offset]
      exact hwof
    · rw [flushToken_line, flushToken_offset]
      exact hp.1
    · rw [flushToken_column, flushToken_offset]
      exact hp.2

theorem step_pos_ret_flush {c : Nat} {seen : List Nat} {L L' : Lexer}
    {t : Token} {tok : PTok} (htr : Tracks seen L) (hw : Wf L)
    (hT : L.token = some tok) (h : step c L = .ret t L') :
    Tracks seen L' ∧ TokLC seen t := by
  obtain ⟨h1, h2⟩ := step_ret_flush hT h
  subst h1
  subst h2
  exact flush_pos htr hw hT

theorem exhaust_pos {seen : List Nat} {L : Lexer} (htr : Tracks seen L) :
    Tracks seen (exhaustChunk L) := by
  obtain ⟨ho, hl, hc2, htok⟩ := htr
  refine ⟨?_, ?_, ?_, ?_⟩
  · rw [exhaustChunk_tokenOffset]
    exact ho
  · rw [exhaustChunk_tokenLine]
    exact hl
  · rw [exhaustChunk_tokenColumn]
    exact hc2
  · intro tk htk
    have hm := exhaustChunk_token_posmap L
    rw [htk] at hm
    cases hT : L.token with
    | none =>
      rw [hT] at hm
      simp at hm
    | some tok =>
      rw [hT] at hm
      simp only [Option.map_some', Option.some.injEq, ptokPos,
                 Prod.mk.injEq] at hm
      obtain ⟨hm1, hm2, hm3⟩ := hm
      have hp := htok tok hT
      constructor
      · rw [hm2, hm1]
        exact hp.1
      · rw [hm3, hm1]
        exact hp.2

theorem eos_pos {e : Bool} {seen : List Nat} {L L' : Lexer} {r : Option Token}
    (htr : Tracks seen L) (hw : Wf L) (h : eosStep e L = (r, L')) :
    Tracks seen L' ∧ ∀ t, r = some t → TokLC seen t := by
  cases hT : L.token with
  | none =>
    rw [eosStep_none_token e L hT] at h
    cases h
    exact ⟨htr, fun t ht => by cases ht⟩
  | some tok =>
    cases e with
    | false =>
      rw [eosStep_not_ended] at h
      cases h
      exact ⟨htr, fun t ht => by cases ht⟩
    | true =>
      rw [eosStep_flush L tok hT] at h
      cases h
      obtain ⟨a, b⟩ := flush_pos htr hw hT
      exact ⟨a, fun t ht => by cases ht; exact b⟩

theorem append_pos {seen : List Nat} {L : Lexer} (htr : Tracks seen L)
    (ch : List Nat) : Tracks seen (appendSource ch L) := by
  obtain ⟨ho, hl, hc2, htok⟩ := htr
  exact ⟨ho, hl, hc2, fun tk htk =>
    htok tk (by rwa [appendSource_token] at htk)⟩

theorem initLexer_tracks : Tracks [] initLexer := by
  refine ⟨rfl, rfl, rfl, ?_⟩
  intro tok htok
  simp [initLexer] at htok

theorem initLexer_wf : Wf initLexer := by
  intro tok htok
  simp [initLexer] at htok

theorem initLexer_srcOk : SrcOk initLexer := fun _ => rfl

theorem queueRest_initLexer : queueRest initLexer = [] := rfl

theorem chunkLoop_pos (k : Nat) : ∀ (L : Lexer) (seen : List Nat),
    Tracks seen L → Wf L →
    (L.source.headD []).length ≤ k + L.sourceOffset →
    (∀ L', chunkLoop k L = .ok (.exhausted L') →
       ∃ u, Tracks (seen ++ u) L' ∧ Wf L' ∧ SrcOk L' ∧
         queueRest L = u ++ queueRest L') ∧
    (∀ t L', chunkLoop k L = .ok (.tok t L') →
       ∃ u, Tracks (seen ++ u) L' ∧ Wf L' ∧ SrcOk L' ∧
         queueRest L = u ++ queueRest L' ∧ TokLC (seen ++ u) t) := by
  induction k with
  | zero =>
    intro L seen htr hw hk
    constructor
    · intro L' hcl
      rw [chunkLoop_zero] at hcl
      simp only [Except.ok.injEq, ChunkOut.exhausted.injEq] at hcl
      subst hcl
      have hget : (L.source.headD []).get? L.sourceOffset = none := by
        rw [List.get?_eq_none]
        omega
      refine ⟨[], by simpa using exhaust_pos htr, (exhaustChunk_wf hw).1,
              fun _ => exhaustChunk_sourceOffset L, ?_⟩
      rw [queueRest_exhaust hget]
      rfl
    · intro t L' hcl
      rw [chunkLoop_zero] at hcl
      simp at hcl
  | succ k ih =>
    intro L seen htr hw hk
    cases hget : (L.source.headD []).get? L.sourceOffset with
    | none =>
      constructor
      · intro L' hcl
        rw [chunkLoop_succ_none L k hget] at hcl
        simp only [Except.ok.injEq, ChunkOut.exhausted.injEq] at hcl
        subst hcl
        refine ⟨[], by simpa using exhaust_pos htr, (exhaustChunk_wf hw).1,
                fun _ => exhaustChunk_sourceOffset L, ?_⟩
        rw [queueRest_exhaust hget]
        rfl
      · intro t L' hcl
        rw [chunkLoop_succ_none L k hget] at hcl
        simp at hcl
    | some c =>
      have hsne : L.source ≠ [] := source_ne_of_get hget
      cases hstep : step c L with
      | ret t1 L1 =>
        constructor
        · intro L' hcl
          rw [chunkLoop_succ_ret L L1 k c t1 hget hstep] at hcl
          simp at hcl
        · intro t L' hcl
          rw [chunkLoop_succ_ret L L1 k c t1 hget hstep] at hcl
          simp only [Except.ok.injEq, ChunkOut.tok.injEq] at hcl
          obtain ⟨rfl, rfl⟩ := hcl
          cases hT : L.token with
          | none =>
            obtain ⟨htr1, htl⟩ := step_pos_ret_single htr hT hstep
            have hq : queueRest L = c :: queueRest L1 :=
              queueRest_consume hget (step_ret_base hstep).1
                (step_ret_single hT hstep).2.1
            refine ⟨[c], htr1, (step_ret_wf hw hstep).1, ?_, by rw [hq]; rfl,
                    htl⟩
            intro hs
            exact absurd ((step_ret_base hstep).1 ▸ hs) hsne
          | some tok =>
            obtain ⟨htr1, htl⟩ := step_pos_ret_flush htr hw hT hstep
            have hq : queueRest L1 = queueRest L := by
              rw [(step_ret_flush hT hstep).2]
              exact queueRest_flush L tok
            refine ⟨[], by simpa using htr1, (step_ret_wf hw hstep).1, ?_,
                    by rw [hq]; rfl, by simpa using htl⟩
            intro hs
            exact absurd ((step_ret_base hstep).1 ▸ hs) hsne
      | err e =>
        constructor
        · intro L' hcl
          rw [chunkLoop_succ_err L k c e hget hstep] at hcl
          simp at hcl
        · intro t L' hcl
          rw [chunkLoop_succ_err L k c e hget hstep] at hcl
          simp at hcl
      | cont L1 =>
        have hb := step_cont_base hstep
        have htr1 := step_pos_cont htr hw hstep
        have hw1 := (step_cont_wf hw hstep).1
        have hk1 : (L1.source.headD []).length ≤ k + L1.sourceOffset := by
          rw [hb.1, hb.2.2.1]
          omega
        have hq : queueRest L = c :: queueRest L1 :=
          queueRest_consume hget hb.1 hb.2.2.1
        obtain ⟨ihe, iht⟩ := ih L1 (seen ++ [c]) htr1 hw1 hk1
        constructor
        · intro L' hcl
          rw [chunkLoop_succ_cont L L1 k c hget hstep] at hcl
          obtain ⟨u, a, b, so, qq⟩ := ihe L' hcl
          refine ⟨c :: u, ?_, b, so, ?_⟩
          · rw [show seen ++ c :: u = (seen ++ [c]) ++ u from by simp]
            exact a
          · rw [hq, qq]
            rfl
        · intro t L' hcl
          rw [chunkLoop_succ_cont L L1 k c hget hstep] at hcl
          obtain ⟨u, a, b, so, qq, tl⟩ := iht t L' hcl
          refine ⟨c :: u, ?_, b, so, ?_, ?_⟩
          · rw [show seen ++ c :: u = (seen ++ [c]) ++ u from by simp]
            exact a
          · rw [hq, qq]
            rfl
          · rw [show seen ++ c :: u = (seen ++ [c]) ++ u from by simp]
            exact tl

theorem nextGo_pos (n : Nat) : ∀ (L : Lexer) (seen : List Nat) (e : Bool),
    Tracks seen L → Wf L → SrcOk L →
    (∀ L', nextGo e n L = .ok (none, L') →
       ∃ u, Tracks (seen ++ u) L' ∧ Wf L' ∧ SrcOk L' ∧
         queueRest L = u ++ queueRest L') ∧
    (∀ t L', nextGo e n L = .ok (some t, L') →
       ∃ u, Tracks (seen ++ u) L' ∧ Wf L' ∧ SrcOk L' ∧
         queueRest L = u ++ queueRest L' ∧ TokLC (seen ++ u) t) := by
  induction n with
  | zero =>
    intro L seen e htr hw hso
    constructor
    · intro L' h
      rw [nextGo_zero] at h
      simp only [Except.ok.injEq] at h
      obtain ⟨a, -⟩ := eos_pos htr hw h
      refine ⟨[], by simpa using a, ?_, ?_, by rw [queueRest_eos h]; rfl⟩
      · exact ((eosStep_wf hw).1 L' h).1
      · intro hs
        cases hT : L.token with
        | none =>
          rw [eosStep_none_token e L hT] at h
          cases h
          exact hso hs
        | some tok =>
          cases e with
          | false =>
            rw [eosStep_not_ended] at h
            cases h
            exact hso hs
          | true =>
            rw [eosStep_flush L tok hT] at h
            cases h
    · intro t L' h
      rw [nextGo_zero] at h
      simp only [Except.ok.injEq] at h
      obtain ⟨a, b⟩ := eos_pos htr hw h
      refine ⟨[], by simpa using a, ?_, ?_, by rw [queueRest_eos h]; rfl,
              by simpa using b t rfl⟩
      · exact ((eosStep_wf hw).2 t L' h).1
      · intro hs
        cases hT : L.token with
        | none =>
          rw [eosStep_none_token e L hT] at h
          cases h
        | some tok =>
          cases e with
          | false =>
            rw [eosStep_not_ended] at h
            cases h
          | true =>
            rw [eosStep_flush L tok hT] at h
            cases h
            rw [flushToken_sourceOffset]
            exact hso (by rwa [flushToken_source] at hs)
  | succ n ih =>
    intro L seen e htr hw hso
    cases hs : L.source with
    | nil =>
      constructor
      · intro L' h
        rw [nextGo_succ_nil e L n hs] at h
        simp only [Except.ok.injEq] at h
        obtain ⟨a, -⟩ := eos_pos htr hw h
        cases hT : L.token with
        | none =>
          rw [eosStep_none_token e L hT] at h
          cases h
          exact ⟨[], by simpa using a, hw, hso, by rfl⟩
        | some tok =>
          cases e with
          | false =>
            rw [eosStep_not_ended] at h
            cases h
            exact ⟨[], by simpa using a, hw, hso, by rfl⟩
          | true =>
            rw [eosStep_flush L tok hT] at h
            cases h
      · intro t L' h
        rw [nextGo_succ_nil e L n hs] at h
        simp only [Except.ok.injEq] at h
        obtain ⟨a, b⟩ := eos_pos htr hw h
        cases hT : L.token with
        | none =>
          rw [eosStep_none_token e L hT] at h
          cases h
        | some tok =>
          cases e with
          | false =>
            rw [eosStep_not_ended] at h
            cases h
          | true =>
            rw [eosStep_flush L tok hT] at h
            cases h
            refine ⟨[], by simpa using a, ((eosStep_wf hw).2 _ _
              (eosStep_flush L tok hT)).1, ?_, ?_, ?_⟩
            · intro hs2
              rw [flushToken_sourceOffset]
              exact hso (by rwa [flushToken_source] at hs2)
            · rw [queueRest_flush]
              rfl
            · simpa using b _ rfl
    | cons ch rest =>
      have hk : (L.source.headD []).length ≤ ch.length + L.sourceOffset := by
        rw [hs]
        simp
      cases hc : chunkLoop ch.length L with
      | error er =>
        constructor
        · intro L' h
          rw [nextGo_succ_err e L n ch rest er hs hc] at h
          simp at h
        · intro t L' h
          rw [nextGo_succ_err e L n ch rest er hs hc] at h
          simp at h
      | ok out =>
        cases out with
        | tok t1 L1 =>
          obtain ⟨-, hck⟩ := chunkLoop_pos ch.length L seen htr hw hk
          constructor
          · intro L' h
            rw [nextGo_succ_tok e L L1 n ch rest t1 hs hc] at h
            simp at h
          · intro t L' h
            rw [nextGo_succ_tok e L L1 n ch rest t1 hs hc] at h
            simp only [Except.ok.injEq, Prod.mk.injEq,
                       Option.some.injEq] at h
            obtain ⟨rfl, rfl⟩ := h
            exact hck t1 L1 hc
        | exhausted L1 =>
          obtain ⟨hce, -⟩ := chunkLoop_pos ch.length L seen htr hw hk
          obtain ⟨u1, a1, b1, so1, q1⟩ := hce L1 hc
          obtain ⟨ihe, iht⟩ := ih L1 (seen ++ u1) e a1 b1 so1
          constructor
          · intro L' h
            rw [nextGo_succ_exh e L L1 n ch rest hs hc] at h
            obtain ⟨u2, a, b, so, qq⟩ := ihe L' h
            refine ⟨u1 ++ u2, ?_, b, so, ?_⟩
            · rw [← List.append_assoc]
              exact a
            · rw [q1, qq, List.append_assoc]
          · intro t L' h
            rw [nextGo_succ_exh e L L1 n ch rest hs hc] at h
            obtain ⟨u2, a, b, so, qq, tl⟩ := iht t L' h
            refine ⟨u1 ++ u2, ?_, b, so, ?_, ?_⟩
            · rw [← List.append_assoc]
              exact a
            · rw [q1, qq, List.append_assoc]
            · rw [← List.append_assoc]
              exact tl

theorem runOps_pos : ∀ (ops : List Op) (L : Lexer) (seen : List Nat),
    Tracks seen L → Wf L → SrcOk L →
    ∀ ts L', runOps L ops = .ok (ts, L') →
      ∃ u, Tracks (seen ++ u) L' ∧ Wf L' ∧ SrcOk L' ∧
        queueRest L ++ inputOf ops = u ++ queueRest L' ∧
        ∀ t ∈ ts, TokLC (seen ++ u) t := by
  intro ops
  induction ops with
  | nil =>
    intro L seen htr hw hso ts L' h
    rw [runOps_nil] at h
    simp only [Except.ok.injEq, Prod.mk.injEq] at h
    obtain ⟨rfl, rfl⟩ := h
    exact ⟨[], by simpa using htr, hw, hso, by simp [inputOf], by simp⟩
  | cons op ops ih =>
    intro L seen htr hw hso ts L' h
    cases op with
    | app c =>
      rw [runOps_app] at h
      have htr2 := append_pos htr c
      have hw2 : Wf (appendSource c L) := (appendSource_wf hw c).1
      have hso2 : SrcOk (appendSource c L) := fun hs =>
        absurd hs (appendSource_ne_nil c L)
      obtain ⟨u, a, b, so, qq, tl⟩ := ih (appendSource c L) seen htr2 hw2 hso2
        ts L' h
      refine ⟨u, a, b, so, ?_, tl⟩
      rw [show inputOf (.app c :: ops) = c ++ inputOf ops from rfl,
          ← List.append_assoc, ← queueRest_append c hso]
      exact qq
    | nxt e =>
      cases hn : next e L with
      | error er =>
        rw [runOps_nxt_err L e ops er hn] at h
        simp at h
      | ok p =>
        obtain ⟨t?, L1⟩ := p
        rw [runOps_nxt_ok L L1 e ops t? hn] at h
        cases hr : runOps L1 ops with
        | error er =>
          simp [hr] at h
        | ok q =>
          obtain ⟨ts1, L2⟩ := q
          simp only [hr, Except.ok.injEq, Prod.mk.injEq] at h
          obtain ⟨rfl, rfl⟩ := h
          cases t? with
          | none =>
            obtain ⟨u1, a1, b1, so1, q1⟩ :=
              (nextGo_pos L.source.length L seen e htr hw hso).1 L1 hn
            obtain ⟨u2, a, b, so, qq, tl⟩ := ih L1 (seen ++ u1) a1 b1 so1
              ts1 L2 hr
            refine ⟨u1 ++ u2, ?_, b, so, ?_, ?_⟩
            · rw [← List.append_assoc]
              exact a
            · rw [show inputOf (.nxt e :: ops) = inputOf ops from rfl]
              calc queueRest L ++ inputOf ops
                  = (u1 ++ queueRest L1) ++ inputOf ops := by rw [q1]
                _ = u1 ++ (queueRest L1 ++ inputOf ops) := by
                      rw [List.append_assoc]
                _ = u1 ++ (u2 ++ queueRest L2) := by rw [qq]
                _ = (u1 ++ u2) ++ queueRest L2 := by rw [List.append_assoc]
            · intro t ht
              simp only [Option.toList_none, List.nil_append] at ht
              rw [← List.append_assoc]
              exact tl t ht
          | some t0 =>
            obtain ⟨u1, a1, b1, so1, q1, tl0⟩ :=
              (nextGo_pos L.source.length L seen e htr hw hso).2 t0 L1 hn
            obtain ⟨u2, a, b, so, qq, tl⟩ := ih L1 (seen ++ u1) a1 b1 so1
              ts1 L2 hr
            refine ⟨u1 ++ u2, ?_, b, so, ?_, ?_⟩
            · rw [← List.append_assoc]
              exact a
            · rw [show inputOf (.nxt e :: ops) = inputOf ops from rfl]
              calc queueRest L ++ inputOf ops
                  = (u1 ++ queueRest L1) ++ inputOf ops := by rw [q1]
                _ = u1 ++ (queueRest L1 ++ inputOf ops) := by
                      rw [List.append_assoc]
                _ = u1 ++ (u2 ++ queueRest L2) := by rw [qq]
                _ = (u1 ++ u2) ++ queueRest L2 := by rw [List.append_assoc]
            · intro t ht
              simp only [Option.toList_some, List.singleton_append] at ht
              rcases List.mem_cons.mp ht with rfl | ht2
              · rw [show seen ++ (u1 ++ u2) = (seen ++ u1) ++ u2 from by
                      rw [List.append_assoc]]
                exact TokLC_append _ _ _ tl0
              · rw [← List.append_assoc]
                exact tl t ht2

/-! ## Claim-level results -/

/-- Specification-side counting rule, following the spec's words: the line
number of the position after `n` codepoints is the number of codepoints
classified as line breaks among the first `n` codepoints of the input. -/
def specLineAt (s : List Nat) (n : Nat) : Nat :=
  ((s.take n).filter (fun c => UC.is_linebreak c)).length

/-- State right after the initial LINE FEED of an input has been consumed. -/
def lexAfterLF : Lexer :=
  { source := [], sourceTailNull := true, sourceOffset := 1, tokenOffset := 1,
    tokenLine := 1, tokenColumn := 0,
    token := some { type := LINE, value := none, offset := 0, line := 0,
                    column := 0 },
    tokenValueOffset := -1 }

/-- An in-progress Line token starting at the beginning of the input. -/
def lineTok : PTok :=
  { type := LINE, value := none, offset := 0, line := 0, column := 0 }

/-- State of the lexer on input LF SP SP SP a b c just before the Line token
is flushed at the symbol character. -/
def lexLineFlush : Lexer :=
  { source := [[10, 32, 32, 32, 97, 98, 99]], sourceTailNull := false,
    sourceOffset := 4, tokenOffset := 4, tokenLine := 1, tokenColumn := 3,
    token := some lineTok, tokenValueOffset := -1 }

/-- State of the lexer on input LF SP with the LINE FEED consumed and the
space about to be consumed. -/
def lexLineWS : Lexer :=
  { source := [[10, 32]], sourceTailNull := false, sourceOffset := 1,
    tokenOffset := 1, tokenLine := 1, tokenColumn := 0,
    token := some lineTok, tokenValueOffset := -1 }

/-- An in-progress Symbol token starting at the beginning of the input,
still in deferred-slice capture. -/
def symTok : PTok :=
  { type := SYMBOL, value := none, offset := 0, line := 0, column := 0 }

/-- State on input a b : c d just before the colon terminates the symbol. -/
def lexSymCol : Lexer :=
  { source := [[97, 98, 58, 99, 100]], sourceTailNull := false,
    sourceOffset := 2, tokenOffset := 2, tokenLine := 0, tokenColumn := 2,
    token := some symTok, tokenValueOffset := 0 }

/-- State with a buffered Symbol token pending and a fresh chunk queued. -/
def pendingSymB : Lexer :=
  { source := [[98]], sourceTailNull := false, sourceOffset := 0,
    tokenOffset := 1, tokenLine := 0, tokenColumn := 1,
    token := some { type := SYMBOL, value := some [97], offset := 0, line := 0,
                    column := 0 },
    tokenValueOffset := -1 }

/-- Result of consuming the next symbol character from pendingSymB. -/
def pendingSymB2 : Lexer :=
  { source := [[98]], sourceTailNull := false, sourceOffset := 1,
    tokenOffset := 2, tokenLine := 0, tokenColumn := 2,
    token := some { type := SYMBOL, value := some [97, 98], offset := 0,
                    line := 0, column := 0 },
    tokenValueOffset := -1 }

/-- State after appending the single chunk 0 and draining it with
next(false): a buffered DecimalNumber token with text 0 is pending. -/
def pendingZero : Lexer :=
  { source := [], sourceTailNull := true, sourceOffset := 0, tokenOffset := 1,
    tokenLine := 0, tokenColumn := 1,
    token := some { type := DECIMAL_NUMBER, value := some [48], offset := 0,
                    line := 0, column := 0 },
    tokenValueOffset := -1 }

/-- State after the run append a, next(true), append b: one chunk queued. -/
def lexAfterAppend : Lexer :=
  { source := [[98]], sourceTailNull := false, sourceOffset := 0,
    tokenOffset := 1, tokenLine := 0, tokenColumn := 1, token := none,
    tokenValueOffset := -1 }

/-- Claim C1: chunk-boundary transparency fails on the code.  Feeding
the source a SP b as the two chunks a and SP b (with a next(false) call
between the appends and endOfInput = true at the end) yields an extra
Line token with value 0 at offset 1, which the single-chunk run does not
produce: the virtual-Line test uses the chunk-local offset instead of the
absolute one, so the space at the start of the second chunk starts a Line
token.  The two runs are evaluated here and their token lists differ. -/
theorem claim_C1_eval :
    tokensOf [.app [97, 32, 98], .nxt true, .nxt true, .nxt true] =
      .ok [{ type := SYMBOL, value := .vStr [97], offset := 0, line := 0,
             column := 0 },
           { type := SYMBOL, value := .vStr [98], offset := 2, line := 0,
             column := 2 }] ∧
    tokensOf [.app [97], .nxt false, .app [32, 98], .nxt true, .nxt true,
              .nxt true] =
      .ok [{ type := SYMBOL, value := .vStr [97], offset := 0, line := 0,
             column := 0 },
           { type := LINE, value := .vNum 0, offset := 1, line := 0,
             column := 1 },
           { type := SYMBOL, value := .vStr [98], offset := 2, line := 0,
             column := 2 }] ∧
    ([{ type := SYMBOL, value := .vStr [97], offset := 0, line := 0,
        column := 0 },
      { type := SYMBOL, value := .vStr [98], offset := 2, line := 0,
        column := 2 }] : List Token) ≠
      [{ type := SYMBOL, value := .vStr [97], offset := 0, line := 0,
         column := 0 },
       { type := LINE, value := .vNum 0, offset := 1, line := 0, column := 1 },
       { type := SYMBOL, value := .vStr [98], offset := 2, line := 0,
         column := 2 }] :=
  ⟨rfl, rfl, by decide⟩

/-- Claim C2: the hex-prefix rule fails on the code in buffered capture
mode.  With the token text 0 buffered (chunks 0 then x1), consuming x
raises the reference error caused by the undeclared identifier DIGIT_ZERO
instead of turning the token into HexNumber; the single-chunk run 0x1
does produce HexNumber, and 08x raises the malformed-hex-prefix error as
specified for the deferred-slice path. -/
theorem claim_C2_eval :
    tokensOf [.app [48], .nxt false, .app [120, 49], .nxt true] =
      .error .referenceErrorDigitZero ∧
    tokensOf [.app [48, 120, 49], .nxt true, .nxt true] =
      .ok [{ type := HEX_NUMBER, value := .vStr [48, 120, 49], offset := 0,
             line := 0, column := 0 }] ∧
    tokensOf [.app [48, 56, 120], .nxt true] = .error .unexpectedX :=
  ⟨rfl, rfl, rfl⟩

/-- Claim C3: the leading-whitespace virtual Line rule fails on the code.
The space at absolute offset 1, arriving at the start of the second chunk
of the run z then SP w, starts a Line token (offset 1) even though it is
not the first codepoint of the input, because the code tests the
chunk-local offset; at absolute offset 0 a Line token is started as the
claim states. -/
theorem claim_C3_eval :
    tokensOf [.app [122], .nxt false, .app [32, 119], .nxt true, .nxt true,
              .nxt true] =
      .ok [{ type := SYMBOL, value := .vStr [122], offset := 0, line := 0,
             column := 0 },
           { type := LINE, value := .vNum 0, offset := 1, line := 0,
             column := 1 },
           { type := SYMBOL, value := .vStr [119], offset := 2, line := 0,
             column := 2 }] ∧
    tokensOf [.app [32, 119], .nxt true, .nxt true] =
      .ok [{ type := LINE, value := .vNum 0, offset := 0, line := 0,
             column := 0 },
           { type := SYMBOL, value := .vStr [119], offset := 1, line := 0,
             column := 1 }] :=
  ⟨rfl, rfl⟩

/-- Claim C4, counterexample: consuming CARRIAGE RETURN (U+000D), which
satisfies is_linebreak, does not increment the line counter and does not
reset the column counter.  On input a CR b all three codepoints are
consumed (final total offset 3) yet the final line counter is 0 and the
column counter is 3. -/
theorem claim_C4_counterexample :
    UC.is_linebreak 13 = true ∧
    (runOps initLexer [.app [97, 13, 98], .nxt true, .nxt true,
                       .nxt true]).map
        (fun p => (p.2.tokenOffset, p.2.tokenLine, p.2.tokenColumn)) =
      .ok (3, 0, 3) :=
  ⟨rfl, rfl⟩

/-- Claim C4, amended: the total offset increases by exactly one per
codepoint consumed (a continuing step or a single-character-token step),
and stays put on a flush step that consumes nothing; the line counter
increments and the column counter resets to 0 exactly when the consumed
codepoint is LINE FEED (U+000A) — not for every is_linebreak codepoint;
chunk turnover and appendSource leave all three counters unchanged. -/
theorem claim_C4 (c : Nat) (L : Lexer) :
    (∀ L', step c L = .cont L' →
       L'.tokenOffset = L.tokenOffset + 1 ∧
       (c = UC.LINE_FEED → L'.tokenLine = L.tokenLine + 1 ∧
          L'.tokenColumn = 0) ∧
       (c ≠ UC.LINE_FEED → L'.tokenLine = L.tokenLine ∧
          L'.tokenColumn = L.tokenColumn + 1)) ∧
    (∀ t L', step c L = .ret t L' → L.token = none →
       L'.tokenOffset = L.tokenOffset + 1 ∧ c ≠ UC.LINE_FEED ∧
       L'.tokenLine = L.tokenLine ∧ L'.tokenColumn = L.tokenColumn + 1) ∧
    (∀ t L', step c L = .ret t L' → L.token ≠ none →
       L'.tokenOffset = L.tokenOffset ∧ L'.tokenLine = L.tokenLine ∧
       L'.tokenColumn = L.tokenColumn) ∧
    ((exhaustChunk L).tokenOffset = L.tokenOffset ∧
       (exhaustChunk L).tokenLine = L.tokenLine ∧
       (exhaustChunk L).tokenColumn = L.tokenColumn) ∧
    (∀ ch, (appendSource ch L).tokenOffset = L.tokenOffset ∧
       (appendSource ch L).tokenLine = L.tokenLine ∧
       (appendSource ch L).tokenColumn = L.tokenColumn) := by
  refine ⟨?_, ?_, ?_, ?_, ?_⟩
  · intro L' h
    refine ⟨(step_cont_base h).2.2.2, ?_, ?_⟩
    · intro hc
      subst hc
      exact step_cont_lf h
    · intro hc
      exact step_cont_not_lf hc h
  · intro t L' h hT
    obtain ⟨-, -, h3, h4, h5, -, h7⟩ := step_ret_single hT h
    exact ⟨h3, h7, h4, h5⟩
  · intro t L' h hT
    cases hTok : L.token with
    | none => exact absurd hTok hT
    | some tok =>
      obtain ⟨-, h2⟩ := step_ret_flush hTok h
      rw [h2]
      exact ⟨flushToken_tokenOffset L tok, flushToken_tokenLine L tok,
             flushToken_tokenColumn L tok⟩
  · exact ⟨exhaustChunk_tokenOffset L, exhaustChunk_tokenLine L,
           exhaustChunk_tokenColumn L⟩
  · intro ch
    exact ⟨rfl, rfl, rfl⟩

/-- Claim C4, witness: consuming the LINE FEED at the start of the input
advances the total offset by one, increments the line counter and resets
the column counter to 0. -/
theorem claim_C4_witness :
    lexAfterLF.tokenOffset = initLexer.tokenOffset + 1 ∧
    lexAfterLF.tokenLine = initLexer.tokenLine + 1 ∧
    lexAfterLF.tokenColumn = 0 := by
  have h := (claim_C4 10 initLexer).1 lexAfterLF rfl
  exact ⟨h.1, h.2.1 rfl⟩

theorem step_cont_line_space {c : Nat} {L L' : Lexer} {tok : PTok}
    (hT : L.token = some tok) (ht : tok.type = LINE) (h : step c L = .cont L') :
    UC.is_space c = true := by
  unfold step at h
  repeat' split at h
  all_goals (try exact StepRes.noConfusion h)
  all_goals
    (first
      | (exfalso;
         simp_all [LINE, SYMBOL, DECIMAL_NUMBER, HEX_NUMBER,
                   FRACTIONAL_NUMBER, TEXT]; done)
      | simp_all)

/-- Claim C5: a Line token's value at flush is the ending total offset
minus the starting total offset minus one; the only codepoints a Line
token in progress consumes are space codepoints, so that difference
counts the spaces consumed after the line break; and the input
LF SP SP SP a b c yields a Line token with value 3 followed by the
symbol a b c. -/
theorem claim_C5 :
    (∀ (L : Lexer) (tok : PTok), tok.type = LINE →
       (flushToken L tok).1.value =
         .vNum ((L.tokenOffset : Int) - (tok.offset : Int) - 1)) ∧
    (∀ (c : Nat) (L L' : Lexer) (tok : PTok), L.token = some tok →
       tok.type = LINE → step c L = .cont L' → UC.is_space c = true) ∧
    tokensOf [.app [10, 32, 32, 32, 97, 98, 99], .nxt true, .nxt true,
              .nxt true] =
      .ok [{ type := LINE, value := .vNum 3, offset := 0, line := 0,
             column := 0 },
           { type := SYMBOL, value := .vStr [97, 98, 99], offset := 4,
             line := 1, column := 3 }] := by
  refine ⟨?_, ?_, rfl⟩
  · intro L tok ht
    exact flushToken_value_line L tok ht
  · intro c L L' tok hT ht h
    exact step_cont_line_space hT ht h

/-- Claim C5, witness: flushing the Line token of the input
LF SP SP SP a b c at total offset 4 yields the value 3, and SPACE is
indeed the continuation class of an in-progress Line token. -/
theorem claim_C5_witness :
    (flushToken lexLineFlush lineTok).1.value = .vNum 3 ∧
    UC.is_space 32 = true := by
  constructor
  · rw [claim_C5.1 lexLineFlush lineTok rfl]
    decide
  · exact claim_C5.2.1 32 lexLineWS (consume1 lexLineWS) lineTok rfl rfl rfl

/-- Claim C6: when a Symbol or number-family token in progress is
terminated by the current codepoint, the scan position does not advance
(chunk-local offset, total offset and column are unchanged, so the
codepoint is re-examined as the start of the next token), the reading
state is cleared, and the flushed value covers exactly the codepoints
before the terminator (the deferred slice ends at the current offset;
the buffered accumulator never received the terminator).  Concretely,
a b : c d tokenizes into Symbol a b, Colon, Symbol c d whose consumed
spans tile the source. -/
theorem claim_C6 :
    (∀ (c : Nat) (L L' : Lexer) (tok : PTok) (t : Token),
       L.token = some tok →
       (tok.type = SYMBOL ∨ tok.type = DECIMAL_NUMBER ∨
        tok.type = HEX_NUMBER ∨ tok.type = FRACTIONAL_NUMBER) →
       step c L = .ret t L' →
       L'.sourceOffset = L.sourceOffset ∧ L'.tokenOffset = L.tokenOffset ∧
       L'.tokenColumn = L.tokenColumn ∧ L'.token = none ∧
       (L.tokenValueOffset ≠ -1 →
          t.value = .vStr (substring (L.source.headD [])
            L.tokenValueOffset.toNat L.sourceOffset)) ∧
       (L.tokenValueOffset = -1 →
          t.value = (match tok.value with
                     | some s => TokenValue.vStr s
                     | none => TokenValue.vNone))) ∧
    tokensOf [.app [97, 98, 58, 99, 100], .nxt true, .nxt true, .nxt true,
              .nxt true] =
      .ok [{ type := SYMBOL, value := .vStr [97, 98], offset := 0, line := 0,
             column := 0 },
           { type := COLON, value := .vNone, offset := 2, line := 0,
             column := 2 },
           { type := SYMBOL, value := .vStr [99, 100], offset := 3, line := 0,
             column := 3 }] := by
  refine ⟨?_, rfl⟩
  intro c L L' tok t hT hty h
  obtain ⟨h1, h2⟩ := step_ret_flush hT h
  have hne : tok.type ≠ LINE := by
    rcases hty with h' | h' | h' | h' <;> (rw [h']; decide)
  subst h1
  subst h2
  refine ⟨flushToken_sourceOffset L tok, flushToken_tokenOffset L tok,
          flushToken_tokenColumn L tok, flushToken_token L tok, ?_, ?_⟩
  · intro hd
    exact flushToken_value_deferred L tok hne hd
  · intro hb
    exact flushToken_value_buffered L tok hne hb

/-- Claim C6, witness: terminating the symbol a b of a b : c d by the
colon leaves the scan position unchanged and yields the value a b,
excluding the colon. -/
theorem claim_C6_witness :
    (flushToken lexSymCol symTok).2.sourceOffset = lexSymCol.sourceOffset ∧
    (flushToken lexSymCol symTok).1.value = .vStr [97, 98] := by
  have h := claim_C6.1 58 lexSymCol (flushToken lexSymCol symTok).2 symTok
    (flushToken lexSymCol symTok).1 rfl (Or.inl rfl) rfl
  refine ⟨h.1, ?_⟩
  rw [h.2.2.2.2.1 (by decide)]
  decide

/-- Claim C8: while a token is in progress, per-character processing never
changes the capture mode (tokenValueOffset is preserved and the token
stays in progress); at chunk turnover a token in buffered mode stays
buffered and untouched, while a token in deferred-slice mode transitions
to buffered exactly then, receiving the rest of the dying chunk from its
recorded start offset; hence the deferred-to-buffered transition happens
at most once per token and never reverses. -/
theorem claim_C8 :
    (∀ (c : Nat) (L L' : Lexer) (tok : PTok), L.token = some tok →
       step c L = .cont L' →
       L'.tokenValueOffset = L.tokenValueOffset ∧ L'.token.isSome = true) ∧
    (∀ L : Lexer, L.tokenValueOffset = -1 →
       (exhaustChunk L).tokenValueOffset = -1 ∧
       (exhaustChunk L).token = L.token) ∧
    (∀ (L : Lexer) (tok : PTok), L.token = some tok →
       L.tokenValueOffset ≠ -1 →
       (exhaustChunk L).tokenValueOffset = -1 ∧
       (exhaustChunk L).token = some { tok with
         value := some ((L.source.headD []).drop
           L.tokenValueOffset.toNat) }) := by
  refine ⟨?_, ?_, ?_⟩
  · intro c L L' tok hT h
    obtain ⟨-, h2, h3⟩ := step_cont_inprogress hT h
    exact ⟨h3, h2⟩
  · intro L hb
    unfold exhaustChunk
    rw [if_neg (by simp [hb])]
    exact ⟨hb, rfl⟩
  · intro L tok hT hd
    unfold exhaustChunk
    rw [if_pos hd]
    constructor
    · rfl
    · simp [hT]

/-- Claim C8, witness: consuming b into the buffered symbol a keeps the
mode buffered with the token still in progress, and chunk turnover on the
deferred symbol a b switches the mode to buffered. -/
theorem claim_C8_witness :
    (pendingSymB2.tokenValueOffset = pendingSymB.tokenValueOffset ∧
     pendingSymB2.token.isSome = true) ∧
    (exhaustChunk lexSymCol).tokenValueOffset = -1 := by
  refine ⟨?_, ?_⟩
  · exact claim_C8.1 98 pendingSymB pendingSymB2
      { type := SYMBOL, value := some [97], offset := 0, line := 0,
        column := 0 } rfl rfl
  · exact (claim_C8.2.2 lexSymCol symTok rfl (by decide)).1

/-- Claim C7: idempotent resumability fails on the code.  After appending
the chunk 0 and calling next(false), a DecimalNumber token with buffered
text 0 is pending and further next(false) calls are exact no-ops; but
after appending x2 and calling next(true) the lexer raises the reference
error of the undeclared identifier DIGIT_ZERO instead of completing the
pending token as the HexNumber 0x2 that the contiguous input produces. -/
theorem claim_C7_eval :
    runOps initLexer [.app [48], .nxt false] = .ok ([], pendingZero) ∧
    next false pendingZero = .ok (none, pendingZero) ∧
    tokensOf [.app [48], .nxt false, .app [120, 50], .nxt true] =
      .error .referenceErrorDigitZero ∧
    tokensOf [.app [48, 120, 50], .nxt true, .nxt true] =
      .ok [{ type := HEX_NUMBER, value := .vStr [48, 120, 50], offset := 0,
             line := 0, column := 0 }] :=
  ⟨rfl, rfl, rfl, rfl⟩

/-- Claim C9, counterexample: on input a CR b the second returned token
starts at offset 2 and carries line 0 and column 2, but the spec's line
counting over line-break codepoints assigns line number 1 to offset 2,
because CARRIAGE RETURN satisfies is_linebreak. -/
theorem claim_C9_counterexample :
    (tokensOf [.app [97, 13, 98], .nxt true, .nxt true, .nxt true]).map
        (fun ts => ts.map (fun t => (t.offset, t.line, t.column))) =
      .ok [(0, 0, 0), (2, 0, 2)] ∧
    specLineAt [97, 13, 98] 2 = 1 :=
  ⟨rfl, rfl⟩

/-- Claim C9, amended: across any session starting from the initial state,
the offsets of the returned tokens are strictly increasing; and every
returned token's line field equals the number of LINE FEED codepoints
among the input codepoints before the token's offset, and its column
field equals the number of codepoints between the last LINE FEED (or the
start of input) and the token's offset — i.e. the position fields are
consistent with counting LINE FEED codepoints only, not with counting
every is_linebreak codepoint. -/
theorem claim_C9 (ops : List Op) (ts : List Token) (L' : Lexer)
    (h : runOps initLexer ops = .ok (ts, L')) :
    List.Pairwise (fun a b => a.offset < b.offset) ts ∧
    ∀ t ∈ ts, t.line = lfCount ((inputOf ops).take t.offset) ∧
      t.column = (colOf ((inputOf ops).take t.offset) : Int) := by
  obtain ⟨-, -, hp, -⟩ := runOps_wf ops initLexer initLexer_wf ts L' h
  refine ⟨hp, ?_⟩
  obtain ⟨u, -, -, -, hq, tl⟩ := runOps_pos ops initLexer [] initLexer_tracks
    initLexer_wf initLexer_srcOk ts L' h
  rw [queueRest_initLexer, List.nil_append] at hq
  intro t ht
  obtain ⟨o1, o2, o3⟩ := tl t ht
  rw [List.nil_append] at o1 o2 o3
  have htake : (inputOf ops).take t.offset = u.take t.offset := by
    rw [hq]
    exact List.take_append_of_le_length o1
  rw [htake]
  exact ⟨o2, o3⟩

/-- Operations feeding the input LF a as one chunk and draining it. -/
def opsNA : List Op := [.app [10, 97], .nxt true, .nxt true, .nxt true]

/-- Claim C9, witness: on the input LF a the two returned tokens have
strictly increasing offsets, and the Symbol token at offset 1 carries
line 1 and column 0, matching the LINE-FEED count and the
codepoints-since-last-LINE-FEED count of the input prefix of length 1. -/
theorem claim_C9_witness :
    List.Pairwise (fun a b => a.offset < b.offset)
      [({ type := LINE, value := .vNum 0, offset := 0, line := 0,
          column := 0 } : Token),
       { type := SYMBOL, value := .vStr [97], offset := 1, line := 1,
         column := 0 }] ∧
    (({ type := SYMBOL, value := .vStr [97], offset := 1, line := 1,
        column := 0 } : Token).line =
       lfCount ((inputOf opsNA).take 1) ∧
     ({ type := SYMBOL, value := .vStr [97], offset := 1, line := 1,
        column := 0 } : Token).column =
       (colOf ((inputOf opsNA).take 1) : Int)) := by
  have h := claim_C9 opsNA
    [{ type := LINE, value := .vNum 0, offset := 0, line := 0, column := 0 },
     { type := SYMBOL, value := .vStr [97], offset := 1, line := 1,
       column := 0 }]
    { source := [], sourceTailNull := true, sourceOffset := 0,
      tokenOffset := 2, tokenLine := 1, tokenColumn := 1, token := none,
      tokenValueOffset := -1 }
    rfl
  exact ⟨h.1, h.2 _ (by simp)⟩

/-- Claim C10: after any sequence of appendSource and next operations from
the initial state, the chunk queue's head list is empty exactly when the
mirrored tail pointer is null, so a later appendSource starts a fresh
queue rather than linking onto a discarded chunk, and chunks are
processed strictly in arrival order. -/
theorem claim_C10 (ops : List Op) (ts : List Token) (L' : Lexer)
    (h : runOps initLexer ops = .ok (ts, L')) :
    L'.source = [] ↔ L'.sourceTailNull = true :=
  runOps_queueInv ops initLexer initLexer_queueInv ts L' h

/-- Claim C10, witness: after append a, next(true), append b the queue
holds one chunk and the tail pointer is non-null, consistently. -/
theorem claim_C10_witness :
    lexAfterAppend.source = [] ↔ lexAfterAppend.sourceTailNull = true :=
  claim_C10 [.app [97], .nxt true, .app [98]]
    [{ type := SYMBOL, value := .vStr [97], offset := 0, line := 0,
       column := 0 }]
    lexAfterAppend rfl
